import Mathlib

/-!
# RandLib: shared numerical defaults of `ContinuousDistribution` and some distributions

A shallow embedding of

* `src/distributions/univariate/continuous/ContinuousDistribution.cpp`
  (`quantileImpl`, `quantileImpl1m`, `Hazard`, `Mode`, `GetLeftLimit`, `GetRightLimit`,
  `ExpectedValue`, `Likelihood`, `LogLikelihood`),
* `src/distributions/univariate/discrete/GeometricRand.cpp`
  (`P`, `F`, `variate`, `sample`, `checkValidity`, `fitMLE`),
* `src/distributions/univariate/continuous/NakagamiRand.cpp`
  (`NakagamiRand::setParameters`, `ChiRand::setParameters`, `RayleighRand::F`,
  `RayleighRand::Quantile`),
* `src/variables/continuous/BetaRand.cpp`
  (the setters, `f`, `F`, `variateForEqualParameters`),
* `src/variables/continuous/VonMisesRand.cpp` (the setters, `f`, `F`, `Var`),
* `src/variables/discrete/YuleRand.cpp` (`setShape`, `P`, `F`).

## Number model

A C++ `double` is modelled by `Dbl`: an exact rational, one of the two infinities, or
not-a-number.  Arithmetic is the IEEE-754 arithmetic without rounding (and without a
signed zero: a zero divisor counts as `+0`).  Where the code only adds, multiplies and
compares finite values (the geometric sampler) the values are plain rationals, and the
inversion loop of the sampler takes the rounding applied after each operation as an
argument (`roundDouble` for the arithmetic of the source, the identity for exact
arithmetic).  Code
that calls `std::exp`, `std::log`, `std::sqrt`, `std::cos`, `std::pow` or `std::tgamma`
is written over an ordered field with those functions as arguments, and its theorems
are about the reals.  An `int` is an integer; where the source adds to an `int` that
can be `INT_MAX` (`k + 1` in `GeometricRand::F`, `++x` in the inversion loop) the
overflow is modelled as a missing result.

## Collaborators that are not part of the embedded files

`RandMath::findRoot`, `RandMath::integral`, the virtual members of a distribution
(`SupportType`, `MinValue`, `MaxValue`, `f`, `F`, `S`, `Sample`, `isLeftBounded`,
`isRightBounded`) and the two geometric generators declared in
`NegativeBinomialRand.h` are parameters of the definitions below.
-/

namespace RandLib

/-! ## The `double` model -/

/-- A C++ `double` in exact arithmetic: a finite value, `+inf`, `-inf` or `NAN`. -/
inductive Dbl where
  | fin (q : ℚ)
  | pinf
  | ninf
  | nan
  deriving DecidableEq

namespace Dbl

/-- Unary minus. -/
def neg : Dbl → Dbl
  | fin a => fin (-a)
  | pinf => ninf
  | ninf => pinf
  | nan => nan

/-- Addition: `inf + (-inf)` and anything with `NAN` is `NAN`. -/
def add : Dbl → Dbl → Dbl
  | fin a, fin b => fin (a + b)
  | fin _, pinf => pinf
  | fin _, ninf => ninf
  | pinf, fin _ => pinf
  | pinf, pinf => pinf
  | pinf, ninf => nan
  | ninf, fin _ => ninf
  | ninf, pinf => nan
  | ninf, ninf => ninf
  | nan, _ => nan
  | _, nan => nan

/-- Subtraction, `a - b = a + (-b)`. -/
def sub (a b : Dbl) : Dbl := add a (neg b)

/-- The infinity with the sign of the rational `a`, and `NAN` for `a = 0`
(the value of `a * inf`). -/
def signedInf (a : ℚ) : Dbl :=
  if a = 0 then nan else if 0 < a then pinf else ninf

/-- Multiplication: `0 * inf` and anything with `NAN` is `NAN`. -/
def mul : Dbl → Dbl → Dbl
  | fin a, fin b => fin (a * b)
  | fin a, pinf => signedInf a
  | fin a, ninf => signedInf (-a)
  | pinf, fin b => signedInf b
  | ninf, fin b => signedInf (-b)
  | pinf, pinf => pinf
  | pinf, ninf => ninf
  | ninf, pinf => ninf
  | ninf, ninf => pinf
  | nan, _ => nan
  | _, nan => nan

/-- Division: a finite nonzero value over zero is an infinity, `0 / 0` and
`inf / inf` are `NAN`, a finite value over an infinity is `0`. -/
def div : Dbl → Dbl → Dbl
  | fin a, fin b => if b = 0 then signedInf a else fin (a / b)
  | fin _, pinf => fin 0
  | fin _, ninf => fin 0
  | pinf, fin b => if 0 ≤ b then pinf else ninf
  | ninf, fin b => if 0 ≤ b then ninf else pinf
  | pinf, pinf => nan
  | pinf, ninf => nan
  | ninf, pinf => nan
  | ninf, ninf => nan
  | nan, _ => nan
  | _, nan => nan

instance : Neg Dbl := ⟨neg⟩
instance : Add Dbl := ⟨add⟩
instance : Sub Dbl := ⟨sub⟩
instance : Mul Dbl := ⟨mul⟩
instance : Div Dbl := ⟨div⟩

/-- The comparison `a < b` of C++: false as soon as one side is `NAN`. -/
def lt : Dbl → Dbl → Bool
  | fin a, fin b => decide (a < b)
  | fin _, pinf => true
  | ninf, fin _ => true
  | ninf, pinf => true
  | _, _ => false

/-- The comparison `a <= b` of C++: false as soon as one side is `NAN`. -/
def le : Dbl → Dbl → Bool
  | fin a, fin b => decide (a ≤ b)
  | fin _, pinf => true
  | ninf, fin _ => true
  | ninf, pinf => true
  | pinf, pinf => true
  | ninf, ninf => true
  | _, _ => false

/-- The comparison `a > b` of C++. -/
def gt (a b : Dbl) : Bool := lt b a

/-- The comparison `a >= b` of C++. -/
def ge (a b : Dbl) : Bool := le b a

/-- The predicate `std::isfinite`. -/
def isfinite : Dbl → Bool
  | fin _ => true
  | _ => false

/-- The function `std::fabs`. -/
def fabs : Dbl → Dbl
  | fin a => fin |a|
  | pinf => pinf
  | ninf => pinf
  | nan => nan

/-- The function `std::max(a, b)`, which is `(a < b) ? b : a`. -/
def max (a b : Dbl) : Dbl := if lt a b then b else a

/-- The function `std::min(a, b)`, which is `(b < a) ? b : a`. -/
def min (a b : Dbl) : Dbl := if lt b a then b else a

/-- Conversion of a `double` to a container index (`size_t`): truncation toward
zero; not defined for `NAN`, the infinities and values `<= -1`. -/
def toIndex : Dbl → Option ℕ
  | fin a => if -1 < a then some ⌊a⌋.toNat else none
  | _ => none

end Dbl

open Dbl

/-! ## Collaborators -/

/-- The support classification `SUPPORT_TYPE` returned by `SupportType()`. -/
inductive SUPPORT_TYPE where
  | FINITE_T
  | RIGHTSEMIFINITE_T
  | LEFTSEMIFINITE_T
  | INFINITE_T
  deriving DecidableEq

/-- The virtual members of a concrete distribution that the defaults of
`ContinuousDistribution` call.  `Sample` maps the buffer it is handed to the buffer
it leaves behind. -/
structure ContinuousDistribution where
  SupportType : SUPPORT_TYPE
  MinValue : Dbl
  MaxValue : Dbl
  f : Dbl → Dbl
  F : Dbl → Dbl
  S : Dbl → Dbl
  Mean : Dbl
  Median : Dbl
  Sample : List Dbl → List Dbl
  isLeftBounded : Bool
  isRightBounded : Bool

/-- The routines of `RandMath` used by the defaults.  `findRoot` is the bracketed
overload `findRoot(fun, a, b, root)`, `findRootNewton` the overload
`findRoot(funAndDerivative, root)`, `findMin` the minimiser
`findMin(fun, closePoint, root)`; each returns the `bool` of the C++ function
together with the value left in the reference argument `root`. -/
structure RandMath where
  findRoot : (Dbl → Dbl) → Dbl → Dbl → Dbl → Bool × Dbl
  findRootNewton : (Dbl → Dbl × Dbl) → Dbl → Bool × Dbl
  integral : (Dbl → Dbl) → Dbl → Dbl → Dbl
  findMin : (Dbl → Dbl) → Dbl → Dbl → Bool × Dbl

/-! ## `ContinuousDistribution.cpp`: quantiles -/

/-- The constant `SAMPLE_SIZE` of `quantileImpl` and `quantileImpl1m`. -/
def SAMPLE_SIZE : ℕ := 100

/-- The call `std::sort(sample.begin(), sample.end())`. -/
def sortAscending (sample : List Dbl) : List Dbl :=
  sample.insertionSort (fun a b => Dbl.le a b = true)

/-- The call `std::sort(sample.begin(), sample.end(), std::greater<>())`. -/
def sortDescending (sample : List Dbl) : List Dbl :=
  sample.insertionSort (fun a b => Dbl.ge a b = true)

/-- The sample of `quantileImpl` after `Sample` and `std::sort` (lines 27-29). -/
def sortedSample (d : ContinuousDistribution) : List Dbl :=
  sortAscending (d.Sample (List.replicate SAMPLE_SIZE (fin 0)))

/-- The sample of `quantileImpl1m` after `Sample` and the descending sort
(lines 58-61). -/
def sortedSample1m (d : ContinuousDistribution) : List Dbl :=
  sortDescending (d.Sample (List.replicate SAMPLE_SIZE (fin 0)))

/-- The index expression `p * SAMPLE_SIZE` of `sample[p * SAMPLE_SIZE]`. -/
def guessIndex (p : Dbl) : Option ℕ :=
  (p * fin (SAMPLE_SIZE : ℚ)).toIndex

/-- The read `sample[p * SAMPLE_SIZE]` (lines 30 and 62): `none` when the index is
not a position of the vector. -/
def readGuess (sample : List Dbl) (p : Dbl) : Option Dbl :=
  match guessIndex p with
  | none => none
  | some i => sample[i]?

/-- The lambda handed to the bracketed `findRoot` in `quantileImpl` (lines 17-20). -/
def quantileObjective (d : ContinuousDistribution) (p : Dbl) : Dbl → Dbl :=
  fun x => d.F x - p

/-- The lambda handed to the Newton `findRoot` in `quantileImpl` (lines 32-37). -/
def quantileNewtonObjective (d : ContinuousDistribution) (p : Dbl) : Dbl → Dbl × Dbl :=
  fun x =>
    let first := d.F x - p
    let second := d.f x
    (first, second)

/-- The lambda handed to the bracketed `findRoot` in `quantileImpl1m` (lines 47-51). -/
def quantileObjective1m (d : ContinuousDistribution) (p : Dbl) : Dbl → Dbl :=
  fun x =>
    let y := d.F x - fin 1
    y + p

/-- The lambda handed to the Newton `findRoot` in `quantileImpl1m` (lines 64-70). -/
def quantileNewtonObjective1m (d : ContinuousDistribution) (p : Dbl) : Dbl → Dbl × Dbl :=
  fun x =>
    let first := d.F x - fin 1
    let first := first + p
    let second := d.f x
    (first, second)

/-- The function `ContinuousDistribution::quantileImpl` (lines 12-40).  The result is
`none` when the read of the sample is out of bounds, `some nan` for `return NAN`. -/
def quantileImpl (K : RandMath) (d : ContinuousDistribution) (p : Dbl) : Option Dbl :=
  let guess : Dbl := fin 0
  if d.SupportType = SUPPORT_TYPE.FINITE_T then
    let r := K.findRoot (quantileObjective d p) d.MinValue d.MaxValue guess
    if r.1 then some r.2 else some nan
  else
    match readGuess (sortedSample d) p with
    | none => none
    | some guess =>
      let r := K.findRootNewton (quantileNewtonObjective d p) guess
      if r.1 then some r.2 else some nan

/-- The function `ContinuousDistribution::quantileImpl1m` (lines 42-73). -/
def quantileImpl1m (K : RandMath) (d : ContinuousDistribution) (p : Dbl) : Option Dbl :=
  let guess : Dbl := fin 0
  if d.SupportType = SUPPORT_TYPE.FINITE_T then
    let r := K.findRoot (quantileObjective1m d p) d.MinValue d.MaxValue guess
    if r.1 then some r.2 else some nan
  else
    match readGuess (sortedSample1m d) p with
    | none => none
    | some guess =>
      let r := K.findRootNewton (quantileNewtonObjective1m d p) guess
      if r.1 then some r.2 else some nan

/-! ## `ContinuousDistribution.cpp`: hazard -/

/-- The function `ContinuousDistribution::Hazard` (lines 75-82). -/
def Hazard (d : ContinuousDistribution) (x : Dbl) : Dbl :=
  if Dbl.lt x d.MinValue then fin 0
  else if Dbl.gt x d.MaxValue then nan
  else d.f x / d.S x

/-! ## `ContinuousDistribution.cpp`: expected values -/

/-- The constant `epsilon = 1e-10` of both `ExpectedValue` overloads. -/
def epsilon : Dbl := fin (1 / 10000000000)

/-- The function `ContinuousDistribution::GetLeftLimit` (lines 97-106). -/
def GetLeftLimit (d : ContinuousDistribution) (value epsilon : Dbl) : Dbl :=
  if !(isfinite (d.f value)) then
    if Dbl.lt (fabs value) (fin 1) then value - epsilon
    else value * fin (9999 / 10000)
  else value

/-- The function `ContinuousDistribution::GetRightLimit` (lines 108-117). -/
def GetRightLimit (d : ContinuousDistribution) (value epsilon : Dbl) : Dbl :=
  if !(isfinite (d.f value)) then
    if Dbl.lt (fabs value) (fin 1) then value + epsilon
    else value * fin (10001 / 10000)
  else value

/-- One evaluation of an integrand handed to `RandMath::integral`: the value it
returns, the arguments at which the callbacks `funPtr` and `f` were called, and the
divisors of the divisions it performed, in program order. -/
structure Eval where
  value : Dbl
  calls : List Dbl
  divisors : List Dbl

/-- The integrand of the finite case, `funPtr(x) * f(x)` (lines 140-143, 201-204). -/
def finiteIntegrand (funPtr f : Dbl → Dbl) (x : Dbl) : Dbl :=
  funPtr x * f x

/-- The integrand of the case bounded below only (lines 148-157 and 209-218). -/
def rightSemiIntegrand (funPtr f : Dbl → Dbl) (lowerBoundary x : Dbl) : Eval :=
  if Dbl.ge x (fin 1) then ⟨fin 0, [], []⟩
  else
    let denom := fin 1 - x
    let t := lowerBoundary + x / denom
    let y := funPtr t * f t
    let denom2 := denom * denom
    ⟨y / denom2, [t, t], [denom, denom2]⟩

/-- The integrand of the case bounded above only (lines 162-169 and 222-229). -/
def leftSemiIntegrand (funPtr f : Dbl → Dbl) (upperBoundary x : Dbl) : Eval :=
  if Dbl.le x (fin 0) then ⟨fin 0, [], []⟩
  else
    let t := upperBoundary - (fin 1 - x) / x
    let y := funPtr t * f t
    ⟨y / (x * x), [t, t], [x, x * x]⟩

/-- The integrand of the infinite case (lines 174-184 and 233-243). -/
def infiniteIntegrand (funPtr f : Dbl → Dbl) (x : Dbl) : Eval :=
  if Dbl.ge (fabs x) (fin 1) then ⟨fin 0, [], []⟩
  else
    let x2 := x * x
    let denom := fin 1 - x2
    let t := x / denom
    let y := funPtr t * f t
    let denom2 := denom * denom
    ⟨y * (fin 1 + x2) / denom2, [t, t], [denom, denom2]⟩

/-- The substitution `x = lowerBound + t / (1 - t)` of the case bounded below. -/
def rightSubstitution {α : Type} [DivisionRing α] (lowerBound t : α) : α :=
  lowerBound + t / (1 - t)

/-- The substitution `x = upperBound - (1 - t) / t` of the case bounded above. -/
def leftSubstitution {α : Type} [DivisionRing α] (upperBound t : α) : α :=
  upperBound - (1 - t) / t

/-- The substitution `x = t / (1 - t^2)` of the infinite case. -/
def infiniteSubstitution {α : Type} [DivisionRing α] (t : α) : α :=
  t / (1 - t * t)

/-- The value of `lowerBoundary` in `ExpectedValue(funPtr, minPoint, maxPoint)` after
lines 124-128. -/
def rangeLowerBoundary (d : ContinuousDistribution) (minPoint : Dbl) : Dbl :=
  let lowerBoundary := minPoint
  if d.isRightBounded then GetLeftLimit d (Dbl.max minPoint lowerBoundary) epsilon
  else lowerBoundary

/-- The value of `upperBoundary` in `ExpectedValue(funPtr, minPoint, maxPoint)` after
lines 124-132. -/
def rangeUpperBoundary (d : ContinuousDistribution) (maxPoint : Dbl) : Dbl :=
  let upperBoundary := maxPoint
  if d.isLeftBounded then GetRightLimit d (Dbl.min maxPoint upperBoundary) epsilon
  else upperBoundary

/-- The overload `ExpectedValue(funPtr, minPoint, maxPoint)` (lines 119-186). -/
def ExpectedValueRange (K : RandMath) (d : ContinuousDistribution)
    (funPtr : Dbl → Dbl) (minPoint maxPoint : Dbl) : Dbl :=
  let lowerBoundary := rangeLowerBoundary d minPoint
  let upperBoundary := rangeUpperBoundary d maxPoint
  if Dbl.ge lowerBoundary upperBoundary then fin 0
  else
    let leftBounded := isfinite lowerBoundary
    let rightBounded := isfinite upperBoundary
    if leftBounded && rightBounded then
      K.integral (finiteIntegrand funPtr d.f) lowerBoundary upperBoundary
    else if leftBounded then
      K.integral (fun x => (rightSemiIntegrand funPtr d.f lowerBoundary x).value) (fin 0) (fin 1)
    else if rightBounded then
      K.integral (fun x => (leftSemiIntegrand funPtr d.f upperBoundary x).value) (fin 0) (fin 1)
    else
      K.integral (fun x => (infiniteIntegrand funPtr d.f x).value) (fin (-1)) (fin 1)

/-- The overload `ExpectedValue(funPtr, startPoint)` (lines 189-245). -/
def ExpectedValue (K : RandMath) (d : ContinuousDistribution)
    (funPtr : Dbl → Dbl) (startPoint : Dbl) : Dbl :=
  let _lowerBoundary := startPoint
  let _upperBoundary := startPoint
  let suppType := d.SupportType
  if suppType = SUPPORT_TYPE.FINITE_T then
    let lowerBoundary := GetLeftLimit d d.MinValue epsilon
    let upperBoundary := GetRightLimit d d.MaxValue epsilon
    K.integral (finiteIntegrand funPtr d.f) lowerBoundary upperBoundary
  else if suppType = SUPPORT_TYPE.RIGHTSEMIFINITE_T then
    let lowerBoundary := GetLeftLimit d d.MinValue epsilon
    K.integral (fun x => (rightSemiIntegrand funPtr d.f lowerBoundary x).value) (fin 0) (fin 1)
  else if suppType = SUPPORT_TYPE.LEFTSEMIFINITE_T then
    let upperBoundary := GetRightLimit d d.MaxValue epsilon
    K.integral (fun x => (leftSemiIntegrand funPtr d.f upperBoundary x).value) (fin 0) (fin 1)
  else
    K.integral (fun x => (infiniteIntegrand funPtr d.f x).value) (fin (-1)) (fin 1)

/-! ## Rounding to `double` -/

/-- Rounding of an exact value to the nearest `double` (IEEE-754 binary64, ties to the
even significand), for values of magnitude below `2^1024`; values below the normal
range are rounded on the grid `2^-1074` of the subnormal numbers. -/
def roundDouble (x : ℚ) : ℚ :=
  if x = 0 then 0
  else
    let e : ℤ := max (Int.log 2 |x|) (-1022)
    let ulp : ℚ := 2 ^ (e - 52)
    let m : ℚ := |x| / ulp
    let f : ℤ := ⌊m⌋
    let r : ℚ := m - f
    let n : ℤ :=
      if r < 1 / 2 then f else if 1 / 2 < r then f + 1 else if f % 2 = 0 then f else f + 1
    if 0 < x then n * ulp else -(n * ulp)

/-! ## `GeometricRand.cpp` -/

/-- The data members `p` and `q` of a `GeometricRand` (declared in
`NegativeBinomialDistribution`). -/
structure GeometricRand where
  p : ℚ
  q : ℚ

/-- The random sources and generators that `GeometricRand.cpp` calls, over a
generator state `σ`: the two generators declared in `NegativeBinomialRand.h`,
`UniformRand::standardVariate()`, and the expression
`std::floor(ExponentialRand::variate(-std::log(1 - probability)))` as a function of
`probability`. -/
structure Generators (σ : Type) where
  variateGeometricThroughExponential : GeometricRand → σ → ℤ × σ
  variateGeometricByTable : GeometricRand → σ → ℤ × σ
  standardVariate : σ → ℚ × σ
  floorExponentialVariate : ℚ → σ → ℤ × σ

namespace GeometricRand

/-- The function `GeometricRand::P` (lines 18-21). -/
def P (X : GeometricRand) (k : ℤ) : ℚ :=
  if k < 0 then 0 else X.p * X.q ^ k.toNat

/-- The function `GeometricRand::F` (lines 23-26).  The sum `k + 1` is an addition of
two `int`: at `k = INT_MAX = 2147483647` it overflows, which is undefined behaviour (an
implementation that wraps around evaluates `pow(q, INT_MIN)`), and the result is
`none`. -/
def F (X : GeometricRand) (k : ℤ) : Option ℚ :=
  if k < 0 then some 0
  else if 2147483647 ≤ k then none
  else some (1 - X.q ^ (k + 1).toNat)

/-- The member function `GeometricRand::variate()` (lines 28-31). -/
def variate {σ : Type} (G : Generators σ) (X : GeometricRand) (s : σ) : ℤ × σ :=
  if X.p < 8 / 100 then G.variateGeometricThroughExponential X s
  else G.variateGeometricByTable X s

/-- The loop `for (int &var : outputData) var = gen();`: every slot is overwritten
by the next draw of `gen`. -/
def fillEach {σ : Type} (gen : σ → ℤ × σ) : List ℤ → σ → List ℤ × σ
  | [], s => ([], s)
  | _ :: rest, s =>
    let r := gen s
    let tail := fillEach gen rest r.2
    (r.1 :: tail.1, tail.2)

/-- The function `GeometricRand::sample` (lines 50-60). -/
def sample {σ : Type} (G : Generators σ) (X : GeometricRand) (outputData : List ℤ) (s : σ) :
    List ℤ × σ :=
  if X.p < 8 / 100 then fillEach (G.variateGeometricThroughExponential X) outputData s
  else fillEach (G.variateGeometricByTable X) outputData s

/-- The loop `while (U > sum) { prod *= q; sum += prod; ++x; }` (lines 42-46), run for
at most `fuel` tests of its condition.  Every `double` operation is followed by
`round`: `roundDouble` gives the arithmetic of the source, the identity gives exact
arithmetic.  The result is `none` when the fuel runs out, and when `++x` is reached
with `x = INT_MAX` (overflow of the `int` counter, undefined behaviour). -/
def variateLoop (round : ℚ → ℚ) (U q : ℚ) : ℕ → ℚ → ℚ → ℤ → Option ℤ
  | 0, _, _, _ => none
  | fuel + 1, prod, sum, x =>
    if U > sum then
      let prod := round (prod * q)
      let sum := round (sum + prod)
      if 2147483647 ≤ x then none
      else variateLoop round U q fuel prod sum (x + 1)
    else some x

/-- The static function `GeometricRand::variate(double probability)` (lines 33-48),
with `round` after every `double` operation and for the literal `0.08`. -/
def variateStatic {σ : Type} (round : ℚ → ℚ) (G : Generators σ) (fuel : ℕ)
    (probability : ℚ) (s : σ) : Option (ℤ × σ) :=
  if probability < round (8 / 100) then some (G.floorExponentialVariate probability s)
  else
    let r := G.standardVariate s
    let U := r.1
    let x : ℤ := 0
    let prod := probability
    let sum := prod
    let q := round (1 - probability)
    (variateLoop round U q fuel prod sum x).map (fun x => (x, r.2))

end GeometricRand

/-! ## `ContinuousDistribution.cpp`: mode and likelihood -/

/-- The function `ContinuousDistribution::Mode` (lines 84-95). -/
def Mode (K : RandMath) (d : ContinuousDistribution) : Dbl :=
  let guess := d.Mean
  let guess := if !(isfinite guess) then d.Median else guess
  let root : Dbl := fin 0
  (K.findMin (fun x => -(d.f x)) guess root).2

/-- The function `ContinuousDistribution::Likelihood` (lines 247-253), for a density
`f` with values in `α`. -/
def Likelihood {α : Type} [Mul α] [One α] (f : α → α) (sample : List α) : α :=
  sample.foldl (fun res var => res * f var) 1

/-- The function `ContinuousDistribution::LogLikelihood` (lines 255-261), for a
density `f` with values in `α` and `log` standing for `std::log`. -/
def LogLikelihood {α : Type} [Add α] [Zero α] (log f : α → α) (sample : List α) : α :=
  sample.foldl (fun res var => res + log (f var)) 0

/-! ## `GeometricRand.cpp`: fitting -/

/-- Conversion of a `double` to `int`, as in `for (int var : sample)`: truncation
toward zero. -/
def doubleToInt (x : ℚ) : ℤ :=
  if 0 ≤ x then ⌊x⌋ else ⌈x⌉

/-- What `GeometricRand::fitMLE` calls outside `GeometricRand.cpp`:
`RandMath::sampleMean` and the inherited `setParameters(number, probability)`. -/
structure FitCollaborators where
  sampleMean : List ℚ → ℚ
  setParameters : ℤ → ℚ → GeometricRand → GeometricRand

namespace GeometricRand

/-- The function `GeometricRand::setProbability` (lines 13-16). -/
def setProbability (C : FitCollaborators) (probability : ℚ) (X : GeometricRand) :
    GeometricRand :=
  C.setParameters 1 probability X

/-- The function `GeometricRand::checkValidity` (lines 74-81). -/
def checkValidity : List ℚ → Bool
  | [] => true
  | value :: rest =>
    let var : ℤ := doubleToInt value
    if var < 0 then false else checkValidity rest

/-- The function `GeometricRand::fitMLE` (lines 83-89): the `bool` it returns and the
object it leaves behind. -/
def fitMLE (C : FitCollaborators) (X : GeometricRand) (sample : List ℚ) :
    Bool × GeometricRand :=
  if !(checkValidity sample) then (false, X)
  else (true, setProbability C (1 / (C.sampleMean sample + 1)) X)

end GeometricRand

/-! ## Code over the reals

The functions below call `std::exp`, `std::log`, `std::sqrt`, `std::cos`, `std::pow`
and `std::tgamma`.  They are written over an ordered field `K` and take those
library functions, and the constants `M_PI` and `MIN_POSITIVE`, as arguments; the
theorems put the real functions in their place. -/

/-- The value of a `double` function that can also return `INFINITY` or `NAN`. -/
inductive Value (K : Type) where
  | fin (x : K)
  | pinf
  | ninf
  | nan

/-- The function `std::max(a, b)`, which is `(a < b) ? b : a`. -/
def stdMax {K : Type} [LinearOrderedField K] (a b : K) : K :=
  if a < b then b else a

/-! ### `NakagamiRand.cpp` -/

/-- The data members of a `NakagamiRand`; `Y` holds the two arguments of the last
call `Y.setParameters(m, 1.0 / sigma)`. -/
structure NakagamiRand (K : Type) where
  m : K
  w : K
  sigma : K
  Y : K × K

/-- The data members of a `ChiRand`: its own `sigma` and `sigmaSqInv`, and the
`NakagamiRand` it derives from. -/
structure ChiRand (K : Type) where
  sigma : K
  sigmaSqInv : K
  base : NakagamiRand K

/-- The function `NakagamiRand::setParameters` (lines 13-22). -/
def NakagamiRand.setParameters {K : Type} [LinearOrderedField K] (shape spread : K)
    (_X : NakagamiRand K) : NakagamiRand K :=
  let m := stdMax shape (1 / 2)
  let w := spread
  let w := if w ≤ 0 then 1 else w
  let sigma := m / w
  ⟨m, w, sigma, (m, 1 / sigma)⟩

/-- The function `ChiRand::setParameters` (lines 80-88). -/
def ChiRand.setParameters {K : Type} [LinearOrderedField K] (degree : ℤ) (scale : K)
    (X : ChiRand K) : ChiRand K :=
  let sigma := scale
  let sigma := if sigma ≤ 0 then 1 else sigma
  let sigmaSqInv := 1 / (sigma * sigma)
  ⟨sigma, sigmaSqInv,
    NakagamiRand.setParameters ((1 / 2) * (degree : K)) ((degree : K) * scale * scale) X.base⟩

namespace RayleighRand

/-- The function `RayleighRand::setScale` (lines 193-196). -/
def setScale {K : Type} [LinearOrderedField K] (scale : K) (X : ChiRand K) : ChiRand K :=
  ChiRand.setParameters 2 scale X

/-- The function `RayleighRand::F` (lines 204-209). -/
def F {K : Type} [LinearOrderedField K] (exp : K → K) (X : ChiRand K) (x : K) : K :=
  if x ≤ 0 then 0
  else 1 - exp (-(1 / 2) * x * x * X.sigmaSqInv)

/-- The function `RayleighRand::Quantile` (lines 221-228). -/
def Quantile {K : Type} [LinearOrderedField K] (log sqrt : K → K) (X : ChiRand K) (p : K) :
    Value K :=
  if p < 0 ∨ p > 1 then Value.nan
  else if p = 1 then Value.pinf
  else Value.fin (X.sigma * sqrt (-2 * log (1 - p)))

end RayleighRand

/-! ### `BetaRand.cpp` -/

/-- The data members of a `BetaRand`; `X` and `Y` hold the two arguments of the last
calls `X.setParameters(alpha, 1)` and `Y.setParameters(beta, 1)`. -/
structure BetaRand (K : Type) where
  alpha : K
  beta : K
  gammaA : K
  gammaB : K
  pdfCoef : K
  X : K × K
  Y : K × K

/-- Why a run of a loop with an `int` counter gives no value in the model: the fuel
of the model ran out, or the counter would pass `INT_MAX`. -/
inductive LoopError where
  | outOfFuel
  | intOverflow

namespace BetaRand

/-- The function `BetaRand::setParameters` (lines 13-25). -/
def setParameters {K : Type} [LinearOrderedField K] (tgamma : K → K) (MIN_POSITIVE : K)
    (shape1 shape2 : K) (_B : BetaRand K) : BetaRand K :=
  let alpha := stdMax shape1 MIN_POSITIVE
  let X := (alpha, (1 : K))
  let gammaA := tgamma alpha
  let beta := stdMax shape2 MIN_POSITIVE
  let Y := (beta, (1 : K))
  let gammaB := tgamma beta
  let pdfCoef := tgamma (alpha + beta) / (gammaA * gammaB)
  ⟨alpha, beta, gammaA, gammaB, pdfCoef, X, Y⟩

/-- The constructor `BetaRand::BetaRand(shape1, shape2)` (lines 3-6), run on the
not yet initialised object `B`. -/
def construct {K : Type} [LinearOrderedField K] (tgamma : K → K) (MIN_POSITIVE : K)
    (shape1 shape2 : K) (B : BetaRand K) : BetaRand K :=
  setParameters tgamma MIN_POSITIVE shape1 shape2 B

/-- The function `BetaRand::setAlpha` (lines 27-34). -/
def setAlpha {K : Type} [LinearOrderedField K] (tgamma : K → K) (MIN_POSITIVE : K)
    (shape1 : K) (B : BetaRand K) : BetaRand K :=
  let alpha := stdMax shape1 MIN_POSITIVE
  let X := (alpha, (1 : K))
  let gammaA := tgamma alpha
  let pdfCoef := tgamma (alpha + B.beta) / (gammaA * B.gammaB)
  ⟨alpha, B.beta, gammaA, B.gammaB, pdfCoef, X, B.Y⟩

/-- The function `BetaRand::setBeta` (lines 36-43). -/
def setBeta {K : Type} [LinearOrderedField K] (tgamma : K → K) (MIN_POSITIVE : K)
    (shape2 : K) (B : BetaRand K) : BetaRand K :=
  let beta := stdMax shape2 MIN_POSITIVE
  let Y := (beta, (1 : K))
  let gammaB := tgamma beta
  let pdfCoef := tgamma (B.alpha + beta) / (B.gammaA * gammaB)
  ⟨B.alpha, beta, B.gammaA, gammaB, pdfCoef, B.X, Y⟩

/-- The function `BetaRand::f` (lines 45-52). -/
def f {K : Type} [LinearOrderedField K] (pow : K → K → K) (B : BetaRand K) (x : K) : K :=
  if x < 0 ∨ x > 1 then 0
  else
    let rv := pow x (B.alpha - 1)
    let rv := rv * pow (1 - x) (B.beta - 1)
    B.pdfCoef * rv

/-- The function `BetaRand::F` (lines 54-61). -/
def F {K : Type} [LinearOrderedField K] (_B : BetaRand K) (x : K) : K :=
  if x ≤ 0 then 0
  else if x ≥ 1 then 1
  else x

/-- The loop `do { ... } while (++iter <= 1e9);` of `variateForEqualParameters`
(lines 85-90) followed by `return 0;`, run for at most `fuel` passes through its
body, from the counter value `iter` and the generator state `s`. -/
def variateLoop {K σ : Type} [LinearOrderedField K] (pow : K → K → K)
    (standardVariate : σ → K × σ) (alpha : K) : ℕ → ℤ → σ → Except LoopError (K × σ)
  | 0, _, _ => Except.error LoopError.outOfFuel
  | fuel + 1, iter, s =>
    let r1 := standardVariate s
    let u1 := r1.1
    let r2 := standardVariate r1.2
    let u2 := r2.1
    if u2 ≤ pow (4 * u1 * (1 - u1)) (alpha - 1) then Except.ok (u1, r2.2)
    else if 2147483647 ≤ iter then Except.error LoopError.intOverflow
    else
      let iter := iter + 1
      if iter ≤ 1000000000 then variateLoop pow standardVariate alpha fuel iter r2.2
      else Except.ok (0, r2.2)

/-- The function `BetaRand::variateForEqualParameters` (lines 82-92). -/
def variateForEqualParameters {K σ : Type} [LinearOrderedField K] (pow : K → K → K)
    (standardVariate : σ → K × σ) (B : BetaRand K) (fuel : ℕ) (s : σ) :
    Except LoopError (K × σ) :=
  let iter : ℤ := 0
  variateLoop pow standardVariate B.alpha fuel iter s

/-- A call of one of the parameter setters of `BetaRand`, with its arguments. -/
inductive ParameterCall (K : Type) where
  | setParameters (shape1 shape2 : K)
  | setAlpha (shape1 : K)
  | setBeta (shape2 : K)

/-- The effect of one setter call on the object. -/
def call {K : Type} [LinearOrderedField K] (tgamma : K → K) (MIN_POSITIVE : K) :
    ParameterCall K → BetaRand K → BetaRand K
  | ParameterCall.setParameters shape1 shape2, B =>
    setParameters tgamma MIN_POSITIVE shape1 shape2 B
  | ParameterCall.setAlpha shape1, B => setAlpha tgamma MIN_POSITIVE shape1 B
  | ParameterCall.setBeta shape2, B => setBeta tgamma MIN_POSITIVE shape2 B

/-- The effect of a sequence of setter calls, first call first. -/
def run {K : Type} [LinearOrderedField K] (tgamma : K → K) (MIN_POSITIVE : K)
    (calls : List (ParameterCall K)) (B : BetaRand K) : BetaRand K :=
  calls.foldl (fun B c => call tgamma MIN_POSITIVE c B) B

/-- The generator state after the two draws of one pass through the loop body of
`variateForEqualParameters`. -/
def afterPair {K σ : Type} (standardVariate : σ → K × σ) (s : σ) : σ :=
  (standardVariate (standardVariate s).2).2

/-- The pair `(u1, u2)` drawn in pass number `n` (counted from `0`) of the loop body,
when the loop starts in the generator state `s`. -/
def candidate {K σ : Type} (standardVariate : σ → K × σ) (s : σ) (n : ℕ) : K × K :=
  let t := (afterPair standardVariate)^[n] s
  ((standardVariate t).1, (standardVariate (standardVariate t).2).1)

/-- The acceptance test `u2 <= std::pow(4 * u1 * (1 - u1), alpha - 1)` of line 88. -/
def accepts {K : Type} [LinearOrderedField K] (pow : K → K → K) (alpha : K) (u : K × K) :
    Prop :=
  u.2 ≤ pow (4 * u.1 * (1 - u.1)) (alpha - 1)

end BetaRand

/-! ### `VonMisesRand.cpp` -/

/-- The data members of a `VonMisesRand`. -/
structure VonMisesRand (K : Type) where
  mu : K
  k : K
  I0kInv : K

namespace VonMisesRand

/-- The function `VonMisesRand::setLocation` (lines 14-17). -/
def setLocation {K : Type} (location : K) (V : VonMisesRand K) : VonMisesRand K :=
  ⟨location, V.k, V.I0kInv⟩

/-- The function `VonMisesRand::setConcentration` (lines 19-23);
`modifiedBesselFirstKind` stands for the function of that name in `RandMath`. -/
def setConcentration {K : Type} [LinearOrderedField K] (modifiedBesselFirstKind : K → ℤ → K)
    (concentration : K) (V : VonMisesRand K) : VonMisesRand K :=
  let k := stdMax concentration 0
  ⟨V.mu, k, 1 / modifiedBesselFirstKind k 0⟩

/-- The function `VonMisesRand::f` (lines 25-30); `pi` stands for `M_PI` and `1 / pi`
for `M_1_PI`. -/
def f {K : Type} [LinearOrderedField K] (exp cos : K → K) (pi : K) (V : VonMisesRand K)
    (x : K) : K :=
  if x < V.mu - pi ∨ x > V.mu + pi then 0
  else (1 / 2) * (1 / pi) * V.I0kInv * exp (V.k * cos (x - V.mu))

/-- The function `VonMisesRand::F` (lines 32-43); `integral` stands for
`RandMath::integral`. -/
def F {K : Type} [LinearOrderedField K] (integral : (K → K) → K → K → K) (exp cos : K → K)
    (pi : K) (V : VonMisesRand K) (x : K) : K :=
  if x ≤ V.mu - pi then 0
  else if x ≥ V.mu + pi then 1
  else integral (fun t => f exp cos pi V t) 0 x

/-- The function `VonMisesRand::Var` (lines 56-64). -/
def Var {K : Type} [LinearOrderedField K] (integral : (K → K) → K → K → K) (exp cos : K → K)
    (pi : K) (V : VonMisesRand K) : K :=
  let m2 := integral (fun t => t * t * f exp cos pi V t) (V.mu - pi) (V.mu + pi)
  m2 - V.mu * V.mu

end VonMisesRand

/-! ### `YuleRand.cpp` -/

/-- The data members of a `YuleRand`. -/
structure YuleRand (K : Type) where
  ro : K
  gamma1pRo : K

namespace YuleRand

/-- The function `YuleRand::setShape` (lines 13-19). -/
def setShape {K : Type} [LinearOrderedField K] (tgamma : K → K) (MIN_POSITIVE : K)
    (shape : K) (_Y : YuleRand K) : YuleRand K :=
  let ro := shape
  let ro := if ro ≤ 0 then MIN_POSITIVE else ro
  let gamma1pRo := tgamma (ro + 1)
  ⟨ro, gamma1pRo⟩

/-- The function `YuleRand::P` (lines 21-24). -/
def P {K : Type} [LinearOrderedField K] (tgamma : K → K) (Y : YuleRand K) (k : ℤ) : K :=
  if k < 1 then 0
  else Y.ro * Y.gamma1pRo * tgamma (k : K) / tgamma ((k : K) + Y.ro + 1)

/-- The function `YuleRand::F` (lines 26-32); `std::floor` is the floor of the
ordered field, taken back into the field. -/
def F {K : Type} [LinearOrderedField K] [FloorRing K] (tgamma : K → K) (Y : YuleRand K)
    (x : K) : K :=
  if x < 1 then 0
  else
    let k : K := (⌊x⌋ : K)
    1 - k * Y.gamma1pRo * tgamma k / tgamma (k + Y.ro + 1)

end YuleRand

/-! ## Concrete inputs -/

/-- A distribution on `[0, inf)` with cdf `x / (1 + x)` and density `1 / (1 + x)^2`,
whose `Sample` writes `1/2` into every slot of the buffer. -/
def lomaxDistribution : ContinuousDistribution where
  SupportType := SUPPORT_TYPE.RIGHTSEMIFINITE_T
  MinValue := fin 0
  MaxValue := pinf
  f := fun x => if Dbl.lt x (fin 0) then fin 0 else fin 1 / ((fin 1 + x) * (fin 1 + x))
  F := fun x => if Dbl.lt x (fin 0) then fin 0 else x / (fin 1 + x)
  S := fun x => if Dbl.lt x (fin 0) then fin 1 else fin 1 / (fin 1 + x)
  Mean := pinf
  Median := fin 1
  Sample := fun buf => buf.map (fun _ => fin (1 / 2))
  isLeftBounded := true
  isRightBounded := false

/-- The mirror image of `lomaxDistribution`, on `(-inf, 0]`, with cdf `1 / (1 - x)`. -/
def reflectedLomaxDistribution : ContinuousDistribution where
  SupportType := SUPPORT_TYPE.LEFTSEMIFINITE_T
  MinValue := ninf
  MaxValue := fin 0
  f := fun x => if Dbl.gt x (fin 0) then fin 0 else fin 1 / ((fin 1 - x) * (fin 1 - x))
  F := fun x => if Dbl.gt x (fin 0) then fin 1 else fin 1 / (fin 1 - x)
  S := fun x => if Dbl.gt x (fin 0) then fin 0 else fin 1 - fin 1 / (fin 1 - x)
  Mean := ninf
  Median := fin (-1)
  Sample := fun buf => buf.map (fun _ => fin (-1 / 2))
  isLeftBounded := false
  isRightBounded := true

/-- A symmetric distribution on the whole line with density `1 / (2 (1 + |x|)^2)`. -/
def twoSidedLomaxDistribution : ContinuousDistribution where
  SupportType := SUPPORT_TYPE.INFINITE_T
  MinValue := ninf
  MaxValue := pinf
  f := fun x => fin 1 / (fin 2 * ((fin 1 + fabs x) * (fin 1 + fabs x)))
  F := fun x =>
    if Dbl.lt x (fin 0) then fin 1 / (fin 2 * (fin 1 - x))
    else fin 1 - fin 1 / (fin 2 * (fin 1 + x))
  S := fun x =>
    if Dbl.lt x (fin 0) then fin 1 - fin 1 / (fin 2 * (fin 1 - x))
    else fin 1 / (fin 2 * (fin 1 + x))
  Mean := nan
  Median := fin 0
  Sample := fun buf => buf.map (fun _ => fin 0)
  isLeftBounded := false
  isRightBounded := false

/-- A distribution on `[0, 1]` whose density callback returns `+inf` at both
endpoints, as the density of Beta(1/2, 1/2) does. -/
def endpointSingularDistribution : ContinuousDistribution where
  SupportType := SUPPORT_TYPE.FINITE_T
  MinValue := fin 0
  MaxValue := fin 1
  f := fun x =>
    if x = fin 0 ∨ x = fin 1 then pinf
    else if Dbl.lt x (fin 0) then fin 0 else if Dbl.gt x (fin 1) then fin 0 else fin 1
  F := fun x => if Dbl.lt x (fin 0) then fin 0 else if Dbl.gt x (fin 1) then fin 1 else x
  S := fun x => if Dbl.lt x (fin 0) then fin 1 else if Dbl.gt x (fin 1) then fin 0 else fin 1 - x
  Mean := fin (1 / 2)
  Median := fin (1 / 2)
  Sample := fun buf => buf.map (fun _ => fin (1 / 2))
  isLeftBounded := true
  isRightBounded := true

/-- The uniform distribution on `[0, 1]`. -/
def uniformDistribution : ContinuousDistribution where
  SupportType := SUPPORT_TYPE.FINITE_T
  MinValue := fin 0
  MaxValue := fin 1
  f := fun x => if Dbl.lt x (fin 0) then fin 0 else if Dbl.gt x (fin 1) then fin 0 else fin 1
  F := fun x => if Dbl.lt x (fin 0) then fin 0 else if Dbl.gt x (fin 1) then fin 1 else x
  S := fun x => if Dbl.lt x (fin 0) then fin 1 else if Dbl.gt x (fin 1) then fin 0 else fin 1 - x
  Mean := fin (1 / 2)
  Median := fin (1 / 2)
  Sample := fun buf => buf.map (fun _ => fin (1 / 2))
  isLeftBounded := true
  isRightBounded := true

/-- Generators over a counter as generator state: every draw advances the counter;
the uniform draw is always `3/4`, the table generator returns the counter. -/
def counterGenerators : Generators ℕ where
  variateGeometricThroughExponential := fun _ s => (7, s + 1)
  variateGeometricByTable := fun _ s => ((s : ℤ), s + 1)
  standardVariate := fun s => (3 / 4, s + 1)
  floorExponentialVariate := fun _ s => (0, s + 1)

/-- The `double` `0x1.9999999999998p-3`, about `0.2`: it is `1 - q` for the `double`
`q = 0x1.999999999999ap-1` nearest to `0.8`. -/
def doubleProbability : ℚ := 900719925474099 / 4503599627370496

/-- The `double` `0x1.70a3d70a3d709p-2`, about `0.36`. -/
def doubleDraw : ℚ := 6485183463413513 / 18014398509481984

/-- Generators over a counter whose uniform draw is always `doubleDraw`. -/
def doubleGenerators : Generators ℕ where
  variateGeometricThroughExponential := fun _ s => (7, s + 1)
  variateGeometricByTable := fun _ s => ((s : ℤ), s + 1)
  standardVariate := fun s => (doubleDraw, s + 1)
  floorExponentialVariate := fun _ s => (0, s + 1)

/-- A kernel whose root finders always succeed with the root `3` and whose
integrator returns the integrand at the lower limit. -/
def constantKernel : RandMath where
  findRoot := fun _ _ _ _ => (true, fin 3)
  findRootNewton := fun _ _ => (true, fin 3)
  integral := fun g a _ => g a
  findMin := fun _ closePoint _ => (true, closePoint)

/-- A kernel whose root finders always fail and leave `1/2` in `root`. -/
def failingKernel : RandMath where
  findRoot := fun _ _ _ _ => (false, fin (1 / 2))
  findRootNewton := fun _ _ => (false, fin (1 / 2))
  integral := fun g a _ => g a
  findMin := fun _ _ root => (false, root)

/-! ## Arithmetic of `Dbl` on finite values -/

namespace Dbl

@[simp]
theorem fin_add_fin (a b : ℚ) : fin a + fin b = fin (a + b) := rfl

@[simp]
theorem fin_sub_fin (a b : ℚ) : fin a - fin b = fin (a - b) := by
  show add (fin a) (neg (fin b)) = fin (a - b)
  simp [add, neg, sub_eq_add_neg]

@[simp]
theorem fin_mul_fin (a b : ℚ) : fin a * fin b = fin (a * b) := rfl

theorem fin_div_fin (a b : ℚ) (hb : b ≠ 0) : fin a / fin b = fin (a / b) := by
  show div (fin a) (fin b) = fin (a / b)
  simp [div, hb]

@[simp]
theorem lt_fin_fin (a b : ℚ) : lt (fin a) (fin b) = decide (a < b) := rfl

@[simp]
theorem le_fin_fin (a b : ℚ) : le (fin a) (fin b) = decide (a ≤ b) := rfl

@[simp]
theorem fabs_fin (a : ℚ) : fabs (fin a) = fin |a| := rfl

/-- In exact arithmetic `(a - 1) + p` and `a - (1 - p)` agree on every `double`,
the infinities and `NAN` included. -/
theorem sub_one_add_eq (a p : Dbl) : (a - fin 1) + p = a - (fin 1 - p) := by
  show add (add a (neg (fin 1))) p = add a (neg (add (fin 1) (neg p)))
  cases a <;> cases p <;> simp [add, neg]
  ring

end Dbl

/-! ## Quantiles: the sampled initial guess -/

theorem length_sortAscending (l : List Dbl) : (sortAscending l).length = l.length :=
  List.length_insertionSort _ l

theorem length_sortDescending (l : List Dbl) : (sortDescending l).length = l.length :=
  List.length_insertionSort _ l

theorem perm_sortAscending (l : List Dbl) : (sortAscending l).Perm l :=
  List.perm_insertionSort _ l

theorem length_sortedSample (d : ContinuousDistribution)
    (hlen : ∀ buf, (d.Sample buf).length = buf.length) :
    (sortedSample d).length = 100 := by
  simp [sortedSample, length_sortAscending, hlen, SAMPLE_SIZE]

theorem length_sortedSample1m (d : ContinuousDistribution)
    (hlen : ∀ buf, (d.Sample buf).length = buf.length) :
    (sortedSample1m d).length = 100 := by
  simp [sortedSample1m, length_sortDescending, hlen, SAMPLE_SIZE]

theorem guessIndex_fin (p : ℚ) (hp : 0 ≤ p) :
    guessIndex (fin p) = some ⌊p * 100⌋.toNat := by
  have h : (-1 : ℚ) < p * 100 := by linarith
  simp [guessIndex, SAMPLE_SIZE, toIndex, h]

theorem floor_index_lt (p : ℚ) (hp : 0 ≤ p) (hp1 : p < 1) : ⌊p * 100⌋.toNat < 100 := by
  have h0 : (0 : ℤ) ≤ ⌊p * 100⌋ := Int.floor_nonneg.mpr (by linarith)
  have h1 : ⌊p * 100⌋ < 100 := Int.floor_lt.mpr (by push_cast; linarith)
  omega

/-- For `0 <= p < 1` the read `sample[p * SAMPLE_SIZE]` of `quantileImpl` is in
bounds: the index is `floor(100 p) <= 99` and the value read is the element of the
ascending sample at that position. -/
theorem readGuess_in_bounds (d : ContinuousDistribution)
    (hlen : ∀ buf, (d.Sample buf).length = buf.length) (p : ℚ) (hp : 0 ≤ p) (hp1 : p < 1) :
    ⌊p * 100⌋.toNat < (sortedSample d).length ∧
    readGuess (sortedSample d) (fin p) = (sortedSample d)[⌊p * 100⌋.toNat]? ∧
    ∃ guess, readGuess (sortedSample d) (fin p) = some guess := by
  have hl := length_sortedSample d hlen
  have hi := floor_index_lt p hp hp1
  have hr : readGuess (sortedSample d) (fin p) = (sortedSample d)[⌊p * 100⌋.toNat]? := by
    simp [readGuess, guessIndex_fin p hp]
  refine ⟨by omega, hr, ?_⟩
  rw [hr]
  exact ⟨(sortedSample d)[⌊p * 100⌋.toNat], List.getElem?_eq_getElem (by omega)⟩

/-- The same for the descending sample of `quantileImpl1m`. -/
theorem readGuess1m_in_bounds (d : ContinuousDistribution)
    (hlen : ∀ buf, (d.Sample buf).length = buf.length) (p : ℚ) (hp : 0 ≤ p) (hp1 : p < 1) :
    ⌊p * 100⌋.toNat < (sortedSample1m d).length ∧
    readGuess (sortedSample1m d) (fin p) = (sortedSample1m d)[⌊p * 100⌋.toNat]? ∧
    ∃ guess, readGuess (sortedSample1m d) (fin p) = some guess := by
  have hl := length_sortedSample1m d hlen
  have hi := floor_index_lt p hp hp1
  have hr : readGuess (sortedSample1m d) (fin p) = (sortedSample1m d)[⌊p * 100⌋.toNat]? := by
    simp [readGuess, guessIndex_fin p hp]
  refine ⟨by omega, hr, ?_⟩
  rw [hr]
  exact ⟨(sortedSample1m d)[⌊p * 100⌋.toNat], List.getElem?_eq_getElem (by omega)⟩

theorem lomax_sample_length (buf : List Dbl) :
    (lomaxDistribution.Sample buf).length = buf.length := by
  simp [lomaxDistribution]

/-- C1, evaluated at `p = 1`: for a distribution whose support is not finite and
whose `Sample` keeps the length of the buffer, the index `p * SAMPLE_SIZE` is `100`
while the sorted sample has exactly the positions `0..99`; the read
`sample[p * SAMPLE_SIZE]` of `quantileImpl` and of `quantileImpl1m` is out of bounds. -/
theorem quantileImpl_index_out_of_bounds_at_one (K : RandMath) (d : ContinuousDistribution)
    (hsupp : d.SupportType ≠ SUPPORT_TYPE.FINITE_T)
    (hlen : ∀ buf, (d.Sample buf).length = buf.length) :
    guessIndex (fin 1) = some 100 ∧
    (sortedSample d).length = 100 ∧ (sortedSample1m d).length = 100 ∧
    readGuess (sortedSample d) (fin 1) = none ∧
    readGuess (sortedSample1m d) (fin 1) = none ∧
    quantileImpl K d (fin 1) = none ∧ quantileImpl1m K d (fin 1) = none := by
  have hl := length_sortedSample d hlen
  have hl1 := length_sortedSample1m d hlen
  have hi : guessIndex (fin 1) = some 100 := by
    have hfloor : ⌊(1 : ℚ) * 100⌋ = 100 := by norm_num
    rw [guessIndex_fin 1 (by norm_num), hfloor]
    rfl
  have hr : readGuess (sortedSample d) (fin 1) = none := by
    simp [readGuess, hi, hl]
  have hr1 : readGuess (sortedSample1m d) (fin 1) = none := by
    simp [readGuess, hi, hl1]
  refine ⟨hi, hl, hl1, hr, hr1, ?_, ?_⟩
  · simp [quantileImpl, hsupp, hr]
  · simp [quantileImpl1m, hsupp, hr1]

/-- C1, witness: the distribution `lomaxDistribution` at `p = 1`. -/
theorem quantileImpl_index_out_of_bounds_at_one_witness :
    guessIndex (fin 1) = some 100 ∧
    (sortedSample lomaxDistribution).length = 100 ∧
    (sortedSample1m lomaxDistribution).length = 100 ∧
    readGuess (sortedSample lomaxDistribution) (fin 1) = none ∧
    readGuess (sortedSample1m lomaxDistribution) (fin 1) = none ∧
    quantileImpl constantKernel lomaxDistribution (fin 1) = none ∧
    quantileImpl1m constantKernel lomaxDistribution (fin 1) = none :=
  quantileImpl_index_out_of_bounds_at_one constantKernel lomaxDistribution
    (by simp [lomaxDistribution]) lomax_sample_length

/-! ## Quantiles: failure marker and the `1 - p` variant -/

theorem ite_some_outcome (b : Bool) (r : Dbl) (res : Option Dbl)
    (h : res = if b = true then some r else some nan) :
    (b = false → res = some nan) ∧ (b = true → res = some r) ∧
    (r ≠ nan → (res = some nan ↔ b = false)) := by
  subst h
  cases b <;> simp

theorem quantileImpl_finite (K : RandMath) (d : ContinuousDistribution) (p : Dbl)
    (hsupp : d.SupportType = SUPPORT_TYPE.FINITE_T) :
    quantileImpl K d p =
      if (K.findRoot (quantileObjective d p) d.MinValue d.MaxValue (fin 0)).1 = true
      then some (K.findRoot (quantileObjective d p) d.MinValue d.MaxValue (fin 0)).2
      else some nan := by
  simp [quantileImpl, hsupp]

theorem quantileImpl1m_finite (K : RandMath) (d : ContinuousDistribution) (p : Dbl)
    (hsupp : d.SupportType = SUPPORT_TYPE.FINITE_T) :
    quantileImpl1m K d p =
      if (K.findRoot (quantileObjective1m d p) d.MinValue d.MaxValue (fin 0)).1 = true
      then some (K.findRoot (quantileObjective1m d p) d.MinValue d.MaxValue (fin 0)).2
      else some nan := by
  simp [quantileImpl1m, hsupp]

theorem quantileImpl_sampled (K : RandMath) (d : ContinuousDistribution) (p guess : Dbl)
    (hsupp : d.SupportType ≠ SUPPORT_TYPE.FINITE_T)
    (hread : readGuess (sortedSample d) p = some guess) :
    quantileImpl K d p =
      if (K.findRootNewton (quantileNewtonObjective d p) guess).1 = true
      then some (K.findRootNewton (quantileNewtonObjective d p) guess).2
      else some nan := by
  simp [quantileImpl, hsupp, hread]

theorem quantileImpl1m_sampled (K : RandMath) (d : ContinuousDistribution) (p guess : Dbl)
    (hsupp : d.SupportType ≠ SUPPORT_TYPE.FINITE_T)
    (hread : readGuess (sortedSample1m d) p = some guess) :
    quantileImpl1m K d p =
      if (K.findRootNewton (quantileNewtonObjective1m d p) guess).1 = true
      then some (K.findRootNewton (quantileNewtonObjective1m d p) guess).2
      else some nan := by
  simp [quantileImpl1m, hsupp, hread]

/-- C2: in `quantileImpl` and `quantileImpl1m`, on the bracketed path (finite
support) and on the Newton path (any other support, `guess` being the value read
from the sorted sample), the result is `NAN` when the root finder returns `false`
and is the value the root finder left in `root` when it returns `true`; so, the
root of a successful search being a number, the result is `NAN` exactly when the
root finder reports failure, and the sampled guess is never the result of a failed
search. -/
theorem quantileImpl_nan_iff_findRoot_fails (K : RandMath) (d : ContinuousDistribution)
    (p : Dbl) :
    (d.SupportType = SUPPORT_TYPE.FINITE_T →
      (((K.findRoot (quantileObjective d p) d.MinValue d.MaxValue (fin 0)).1 = false →
          quantileImpl K d p = some nan) ∧
        ((K.findRoot (quantileObjective d p) d.MinValue d.MaxValue (fin 0)).1 = true →
          quantileImpl K d p =
            some (K.findRoot (quantileObjective d p) d.MinValue d.MaxValue (fin 0)).2) ∧
        ((K.findRoot (quantileObjective d p) d.MinValue d.MaxValue (fin 0)).2 ≠ nan →
          (quantileImpl K d p = some nan ↔
            (K.findRoot (quantileObjective d p) d.MinValue d.MaxValue (fin 0)).1 = false))) ∧
      (((K.findRoot (quantileObjective1m d p) d.MinValue d.MaxValue (fin 0)).1 = false →
          quantileImpl1m K d p = some nan) ∧
        ((K.findRoot (quantileObjective1m d p) d.MinValue d.MaxValue (fin 0)).1 = true →
          quantileImpl1m K d p =
            some (K.findRoot (quantileObjective1m d p) d.MinValue d.MaxValue (fin 0)).2) ∧
        ((K.findRoot (quantileObjective1m d p) d.MinValue d.MaxValue (fin 0)).2 ≠ nan →
          (quantileImpl1m K d p = some nan ↔
            (K.findRoot (quantileObjective1m d p) d.MinValue d.MaxValue (fin 0)).1 =
              false)))) ∧
    (d.SupportType ≠ SUPPORT_TYPE.FINITE_T →
      (∀ guess, readGuess (sortedSample d) p = some guess →
        ((K.findRootNewton (quantileNewtonObjective d p) guess).1 = false →
          quantileImpl K d p = some nan) ∧
        ((K.findRootNewton (quantileNewtonObjective d p) guess).1 = true →
          quantileImpl K d p =
            some (K.findRootNewton (quantileNewtonObjective d p) guess).2) ∧
        ((K.findRootNewton (quantileNewtonObjective d p) guess).2 ≠ nan →
          (quantileImpl K d p = some nan ↔
            (K.findRootNewton (quantileNewtonObjective d p) guess).1 = false))) ∧
      (∀ guess, readGuess (sortedSample1m d) p = some guess →
        ((K.findRootNewton (quantileNewtonObjective1m d p) guess).1 = false →
          quantileImpl1m K d p = some nan) ∧
        ((K.findRootNewton (quantileNewtonObjective1m d p) guess).1 = true →
          quantileImpl1m K d p =
            some (K.findRootNewton (quantileNewtonObjective1m d p) guess).2) ∧
        ((K.findRootNewton (quantileNewtonObjective1m d p) guess).2 ≠ nan →
          (quantileImpl1m K d p = some nan ↔
            (K.findRootNewton (quantileNewtonObjective1m d p) guess).1 = false)))) := by
  refine ⟨fun hsupp => ⟨?_, ?_⟩, fun hsupp => ⟨fun guess hread => ?_, fun guess hread => ?_⟩⟩
  · exact ite_some_outcome _ _ _ (quantileImpl_finite K d p hsupp)
  · exact ite_some_outcome _ _ _ (quantileImpl1m_finite K d p hsupp)
  · exact ite_some_outcome _ _ _ (quantileImpl_sampled K d p guess hsupp hread)
  · exact ite_some_outcome _ _ _ (quantileImpl1m_sampled K d p guess hsupp hread)

/-- C2, witness: with a kernel whose searches succeed with the root `3`, the uniform
distribution on `[0, 1]` gets that root as its median, and with a kernel whose
searches fail it gets `NAN`, although the failed search left `1/2` in `root`. -/
theorem quantileImpl_nan_iff_findRoot_fails_witness :
    quantileImpl constantKernel uniformDistribution (fin (1 / 2)) = some (fin 3) ∧
    quantileImpl failingKernel uniformDistribution (fin (1 / 2)) = some nan ∧
    quantileImpl1m failingKernel lomaxDistribution (fin (1 / 2)) = some nan :=
  ⟨((quantileImpl_nan_iff_findRoot_fails constantKernel uniformDistribution
      (fin (1 / 2))).1 rfl).1.2.1 rfl,
    ((quantileImpl_nan_iff_findRoot_fails failingKernel uniformDistribution
      (fin (1 / 2))).1 rfl).1.1 rfl,
    (((quantileImpl_nan_iff_findRoot_fails failingKernel lomaxDistribution
      (fin (1 / 2))).2 (by simp [lomaxDistribution])).2 (fin (1 / 2))
        (by
          rw [(readGuess1m_in_bounds lomaxDistribution lomax_sample_length (1 / 2)
            (by norm_num) (by norm_num)).2.1]
          have hfloor : ⌊(1 / 2 : ℚ) * 100⌋ = 50 := by norm_num
          have h50 : Int.toNat 50 = 50 := rfl
          rw [hfloor, h50]
          simp [sortedSample1m, sortDescending, lomaxDistribution, SAMPLE_SIZE])).1 rfl⟩

/-! ### C3 -/

theorem quantileObjective1m_eq (d : ContinuousDistribution) (p : Dbl) :
    quantileObjective1m d p = quantileObjective d (fin 1 - p) := by
  funext x
  simp only [quantileObjective1m, quantileObjective]
  exact Dbl.sub_one_add_eq (d.F x) p

/-- C3: for finite support, the objective `(F(x) - 1) + p` that `quantileImpl1m(p)`
hands to the bracketed root finder equals, at every `x`, the objective
`F(x) - (1 - p)` that `quantileImpl(1 - p)` hands over; both searches use the bracket
`[MinValue, MaxValue]` and the start value `0`, so for every root finder
`quantileImpl1m(p) = quantileImpl(1 - p)`. -/
theorem quantileImpl1m_eq_quantileImpl_one_sub (K : RandMath) (d : ContinuousDistribution)
    (p : Dbl) (hsupp : d.SupportType = SUPPORT_TYPE.FINITE_T) :
    (∀ x, quantileObjective1m d p x = quantileObjective d (fin 1 - p) x) ∧
    (∀ x, quantileObjective1m d p x = (d.F x - fin 1) + p) ∧
    (∀ x, quantileObjective d (fin 1 - p) x = d.F x - (fin 1 - p)) ∧
    quantileImpl1m K d p = quantileImpl K d (fin 1 - p) := by
  refine ⟨fun x => congrFun (quantileObjective1m_eq d p) x, fun x => rfl, fun x => rfl, ?_⟩
  rw [quantileImpl1m_finite K d p hsupp, quantileImpl_finite K d (fin 1 - p) hsupp,
    quantileObjective1m_eq]

/-- C3, witness: the uniform distribution on `[0, 1]` at `p = 1/4`. -/
theorem quantileImpl1m_eq_quantileImpl_one_sub_witness :
    quantileImpl1m constantKernel uniformDistribution (fin (1 / 4)) =
      quantileImpl constantKernel uniformDistribution (fin 1 - fin (1 / 4)) :=
  (quantileImpl1m_eq_quantileImpl_one_sub constantKernel uniformDistribution (fin (1 / 4))
    rfl).2.2.2

/-! ## Expected values: the substituted integrands -/

theorem rightSemiIntegrand_of_lt (funPtr f : Dbl → Dbl) (lb : Dbl) (t : ℚ) (ht : t < 1) :
    rightSemiIntegrand funPtr f lb (fin t) =
      ⟨funPtr (lb + fin (t / (1 - t))) * f (lb + fin (t / (1 - t))) / fin ((1 - t) ^ 2),
        [lb + fin (t / (1 - t)), lb + fin (t / (1 - t))],
        [fin (1 - t), fin ((1 - t) ^ 2)]⟩ := by
  have h1 : ¬ (1 : ℚ) ≤ t := not_le.mpr ht
  have h2 : (1 : ℚ) - t ≠ 0 := by linarith
  simp [rightSemiIntegrand, Dbl.ge, h1, Dbl.fin_div_fin _ _ h2, sq]

theorem rightSemiIntegrand_of_ge (funPtr f : Dbl → Dbl) (lb : Dbl) (t : ℚ) (ht : 1 ≤ t) :
    rightSemiIntegrand funPtr f lb (fin t) = ⟨fin 0, [], []⟩ := by
  simp [rightSemiIntegrand, Dbl.ge, ht]

theorem hasDerivAt_rightSubstitution (l t : ℝ) (ht : t ≠ 1) :
    HasDerivAt (fun s : ℝ => rightSubstitution l s) (1 / (1 - t) ^ 2) t := by
  have h1 : (1 : ℝ) - t ≠ 0 := sub_ne_zero.mpr (Ne.symm ht)
  have hnum : HasDerivAt (fun s : ℝ => s) 1 t := hasDerivAt_id t
  have hden : HasDerivAt (fun s : ℝ => 1 - s) (-1) t := by
    simpa using (hasDerivAt_id t).const_sub 1
  have h := (hnum.div hden h1).const_add l
  unfold rightSubstitution
  convert h using 1
  field_simp

theorem ExpectedValueRange_leftBounded (K : RandMath) (d : ContinuousDistribution)
    (funPtr : Dbl → Dbl) (minPoint maxPoint : Dbl)
    (hlt : Dbl.ge (rangeLowerBoundary d minPoint) (rangeUpperBoundary d maxPoint) = false)
    (hlo : isfinite (rangeLowerBoundary d minPoint) = true)
    (hup : isfinite (rangeUpperBoundary d maxPoint) = false) :
    ExpectedValueRange K d funPtr minPoint maxPoint =
      K.integral
        (fun x => (rightSemiIntegrand funPtr d.f (rangeLowerBoundary d minPoint) x).value)
        (fin 0) (fin 1) := by
  simp [ExpectedValueRange, hlt, hlo, hup]

/-- C4: for right-semi-infinite support `ExpectedValue(funPtr, startPoint)` hands
the integrator the interval `[0, 1]` and the integrand `rightSemiIntegrand` with
`lowerBoundary = GetLeftLimit(MinValue())`, and so does
`ExpectedValue(funPtr, minPoint, maxPoint)` when only its lower boundary is finite.
For every `t < 1` that integrand calls `funPtr` and `f` at
`x = lowerBoundary + t / (1 - t)`, returns `funPtr(x) * f(x) / (1 - t)^2`, and divides
only by `1 - t` and `(1 - t)^2`, both nonzero; for `0 <= t < 1` and a finite
`lowerBoundary`, `x >= lowerBoundary`; `1 / (1 - t)^2` is the derivative of the
substitution; and for every `t >= 1` the integrand returns `0` with no call of
`funPtr` or `f` and no division. -/
theorem ExpectedValue_rightSemi_integrand (K : RandMath) (d : ContinuousDistribution)
    (funPtr : Dbl → Dbl) (startPoint : Dbl)
    (hsupp : d.SupportType = SUPPORT_TYPE.RIGHTSEMIFINITE_T) :
    ExpectedValue K d funPtr startPoint =
      K.integral
        (fun x => (rightSemiIntegrand funPtr d.f (GetLeftLimit d d.MinValue epsilon) x).value)
        (fin 0) (fin 1) ∧
    (∀ minPoint maxPoint,
      Dbl.ge (rangeLowerBoundary d minPoint) (rangeUpperBoundary d maxPoint) = false →
      isfinite (rangeLowerBoundary d minPoint) = true →
      isfinite (rangeUpperBoundary d maxPoint) = false →
      ExpectedValueRange K d funPtr minPoint maxPoint =
        K.integral
          (fun x => (rightSemiIntegrand funPtr d.f (rangeLowerBoundary d minPoint) x).value)
          (fin 0) (fin 1)) ∧
    (∀ (lb : Dbl) (t : ℚ), t < 1 →
      rightSemiIntegrand funPtr d.f lb (fin t) =
        ⟨funPtr (lb + fin (t / (1 - t))) * d.f (lb + fin (t / (1 - t))) / fin ((1 - t) ^ 2),
          [lb + fin (t / (1 - t)), lb + fin (t / (1 - t))],
          [fin (1 - t), fin ((1 - t) ^ 2)]⟩ ∧
      1 - t ≠ 0 ∧ (1 - t) ^ 2 ≠ 0) ∧
    (∀ l t : ℚ, 0 ≤ t → t < 1 →
      fin l + fin (t / (1 - t)) = fin (rightSubstitution l t) ∧
      Dbl.ge (fin (rightSubstitution l t)) (fin l) = true) ∧
    (∀ l t : ℝ, t ≠ 1 →
      HasDerivAt (fun s : ℝ => rightSubstitution l s) (1 / (1 - t) ^ 2) t) ∧
    (∀ (lb : Dbl) (t : ℚ), 1 ≤ t →
      rightSemiIntegrand funPtr d.f lb (fin t) = ⟨fin 0, [], []⟩) := by
  refine ⟨?_, fun minPoint maxPoint h1 h2 h3 =>
      ExpectedValueRange_leftBounded K d funPtr minPoint maxPoint h1 h2 h3,
    fun lb t ht => ⟨rightSemiIntegrand_of_lt funPtr d.f lb t ht, ?_, ?_⟩,
    fun l t ht0 ht1 => ⟨rfl, ?_⟩,
    hasDerivAt_rightSubstitution,
    fun lb t ht => rightSemiIntegrand_of_ge funPtr d.f lb t ht⟩
  · simp [ExpectedValue, hsupp]
  · linarith
  · have h : (1 : ℚ) - t ≠ 0 := by linarith
    exact pow_ne_zero 2 h
  · have h : 0 ≤ t / (1 - t) := div_nonneg ht0 (by linarith)
    simp [Dbl.ge, rightSubstitution, h]

/-- C4, witness: the distribution `lomaxDistribution` on `[0, inf)`. -/
theorem ExpectedValue_rightSemi_integrand_witness :
    ExpectedValue constantKernel lomaxDistribution (fun x => x) (fin 0) =
      constantKernel.integral
        (fun x => (rightSemiIntegrand (fun x => x) lomaxDistribution.f
          (GetLeftLimit lomaxDistribution lomaxDistribution.MinValue epsilon) x).value)
        (fin 0) (fin 1) :=
  (ExpectedValue_rightSemi_integrand constantKernel lomaxDistribution (fun x => x) (fin 0)
    rfl).1

/-! ### C5 -/

theorem leftSemiIntegrand_of_pos (funPtr f : Dbl → Dbl) (ub : Dbl) (t : ℚ) (ht : 0 < t) :
    leftSemiIntegrand funPtr f ub (fin t) =
      ⟨funPtr (ub - fin ((1 - t) / t)) * f (ub - fin ((1 - t) / t)) / fin (t ^ 2),
        [ub - fin ((1 - t) / t), ub - fin ((1 - t) / t)],
        [fin t, fin (t ^ 2)]⟩ := by
  have h1 : ¬ t ≤ 0 := not_le.mpr ht
  have h2 : t ≠ 0 := ne_of_gt ht
  simp [leftSemiIntegrand, h1, Dbl.fin_div_fin _ _ h2, sq]

theorem leftSemiIntegrand_of_nonpos (funPtr f : Dbl → Dbl) (ub : Dbl) (t : ℚ) (ht : t ≤ 0) :
    leftSemiIntegrand funPtr f ub (fin t) = ⟨fin 0, [], []⟩ := by
  simp [leftSemiIntegrand, ht]

theorem hasDerivAt_leftSubstitution (u t : ℝ) (ht : t ≠ 0) :
    HasDerivAt (fun s : ℝ => leftSubstitution u s) (1 / t ^ 2) t := by
  have hnum : HasDerivAt (fun s : ℝ => 1 - s) (-1) t := by
    simpa using (hasDerivAt_id t).const_sub 1
  have hden : HasDerivAt (fun s : ℝ => s) 1 t := hasDerivAt_id t
  have h := (hnum.div hden ht).const_sub u
  unfold leftSubstitution
  convert h using 1
  field_simp

theorem ExpectedValueRange_rightBounded (K : RandMath) (d : ContinuousDistribution)
    (funPtr : Dbl → Dbl) (minPoint maxPoint : Dbl)
    (hlt : Dbl.ge (rangeLowerBoundary d minPoint) (rangeUpperBoundary d maxPoint) = false)
    (hlo : isfinite (rangeLowerBoundary d minPoint) = false)
    (hup : isfinite (rangeUpperBoundary d maxPoint) = true) :
    ExpectedValueRange K d funPtr minPoint maxPoint =
      K.integral
        (fun x => (leftSemiIntegrand funPtr d.f (rangeUpperBoundary d maxPoint) x).value)
        (fin 0) (fin 1) := by
  simp [ExpectedValueRange, hlt, hlo, hup]

/-- C5: for left-semi-infinite support `ExpectedValue(funPtr, startPoint)` hands the
integrator the interval `[0, 1]` and the integrand `leftSemiIntegrand` with
`upperBoundary = GetRightLimit(MaxValue())`, and so does
`ExpectedValue(funPtr, minPoint, maxPoint)` when only its upper boundary is finite.
For every `t > 0` that integrand calls `funPtr` and `f` at
`x = upperBoundary - (1 - t) / t`, returns `funPtr(x) * f(x) / t^2`, and divides only by
`t` and `t^2`, both nonzero; for `0 < t <= 1` and a finite `upperBoundary`,
`x <= upperBoundary`; `1 / t^2` is the derivative of the substitution; and for every
`t <= 0` the integrand returns `0` with no call of `funPtr` or `f` and no division. -/
theorem ExpectedValue_leftSemi_integrand (K : RandMath) (d : ContinuousDistribution)
    (funPtr : Dbl → Dbl) (startPoint : Dbl)
    (hsupp : d.SupportType = SUPPORT_TYPE.LEFTSEMIFINITE_T) :
    ExpectedValue K d funPtr startPoint =
      K.integral
        (fun x => (leftSemiIntegrand funPtr d.f (GetRightLimit d d.MaxValue epsilon) x).value)
        (fin 0) (fin 1) ∧
    (∀ minPoint maxPoint,
      Dbl.ge (rangeLowerBoundary d minPoint) (rangeUpperBoundary d maxPoint) = false →
      isfinite (rangeLowerBoundary d minPoint) = false →
      isfinite (rangeUpperBoundary d maxPoint) = true →
      ExpectedValueRange K d funPtr minPoint maxPoint =
        K.integral
          (fun x => (leftSemiIntegrand funPtr d.f (rangeUpperBoundary d maxPoint) x).value)
          (fin 0) (fin 1)) ∧
    (∀ (ub : Dbl) (t : ℚ), 0 < t →
      leftSemiIntegrand funPtr d.f ub (fin t) =
        ⟨funPtr (ub - fin ((1 - t) / t)) * d.f (ub - fin ((1 - t) / t)) / fin (t ^ 2),
          [ub - fin ((1 - t) / t), ub - fin ((1 - t) / t)],
          [fin t, fin (t ^ 2)]⟩ ∧
      t ≠ 0 ∧ t ^ 2 ≠ 0) ∧
    (∀ u t : ℚ, 0 < t → t ≤ 1 →
      fin u - fin ((1 - t) / t) = fin (leftSubstitution u t) ∧
      Dbl.le (fin (leftSubstitution u t)) (fin u) = true) ∧
    (∀ u t : ℝ, t ≠ 0 →
      HasDerivAt (fun s : ℝ => leftSubstitution u s) (1 / t ^ 2) t) ∧
    (∀ (ub : Dbl) (t : ℚ), t ≤ 0 →
      leftSemiIntegrand funPtr d.f ub (fin t) = ⟨fin 0, [], []⟩) := by
  refine ⟨?_, fun minPoint maxPoint h1 h2 h3 =>
      ExpectedValueRange_rightBounded K d funPtr minPoint maxPoint h1 h2 h3,
    fun ub t ht => ⟨leftSemiIntegrand_of_pos funPtr d.f ub t ht, ne_of_gt ht,
      pow_ne_zero 2 (ne_of_gt ht)⟩,
    fun u t ht0 ht1 => ⟨by simp [leftSubstitution], ?_⟩,
    hasDerivAt_leftSubstitution,
    fun ub t ht => leftSemiIntegrand_of_nonpos funPtr d.f ub t ht⟩
  · simp [ExpectedValue, hsupp]
  · have h : 0 ≤ (1 - t) / t := div_nonneg (by linarith) (le_of_lt ht0)
    simp [leftSubstitution, h]

/-- C5, witness: the distribution `reflectedLomaxDistribution` on `(-inf, 0]`. -/
theorem ExpectedValue_leftSemi_integrand_witness :
    ExpectedValue constantKernel reflectedLomaxDistribution (fun x => x) (fin 0) =
      constantKernel.integral
        (fun x => (leftSemiIntegrand (fun x => x) reflectedLomaxDistribution.f
          (GetRightLimit reflectedLomaxDistribution reflectedLomaxDistribution.MaxValue
            epsilon) x).value)
        (fin 0) (fin 1) :=
  (ExpectedValue_leftSemi_integrand constantKernel reflectedLomaxDistribution (fun x => x)
    (fin 0) rfl).1

/-! ### C6 -/

theorem one_sub_sq_ne_zero (t : ℚ) (ht : |t| < 1) : 1 - t * t ≠ 0 := by
  have h := abs_lt.mp ht
  nlinarith [h.1, h.2]

theorem infiniteIntegrand_of_abs_lt (funPtr f : Dbl → Dbl) (t : ℚ) (ht : |t| < 1) :
    infiniteIntegrand funPtr f (fin t) =
      ⟨funPtr (fin (t / (1 - t ^ 2))) * f (fin (t / (1 - t ^ 2))) * fin (1 + t ^ 2) /
          fin ((1 - t ^ 2) ^ 2),
        [fin (t / (1 - t ^ 2)), fin (t / (1 - t ^ 2))],
        [fin (1 - t ^ 2), fin ((1 - t ^ 2) ^ 2)]⟩ := by
  have h1 : ¬ (1 : ℚ) ≤ |t| := not_le.mpr ht
  have h2 : (1 : ℚ) - t * t ≠ 0 := one_sub_sq_ne_zero t ht
  simp [infiniteIntegrand, Dbl.ge, h1, Dbl.fin_div_fin _ _ h2, sq]

theorem infiniteIntegrand_of_abs_ge (funPtr f : Dbl → Dbl) (t : ℚ) (ht : 1 ≤ |t|) :
    infiniteIntegrand funPtr f (fin t) = ⟨fin 0, [], []⟩ := by
  simp [infiniteIntegrand, Dbl.ge, ht]

theorem hasDerivAt_infiniteSubstitution (t : ℝ) (ht : 1 - t * t ≠ 0) :
    HasDerivAt (fun s : ℝ => infiniteSubstitution s) ((1 + t ^ 2) / (1 - t ^ 2) ^ 2) t := by
  have hnum : HasDerivAt (fun s : ℝ => s) 1 t := hasDerivAt_id t
  have hsq : HasDerivAt (fun s : ℝ => s * s) (1 * t + t * 1) t := hnum.mul hnum
  have hden : HasDerivAt (fun s : ℝ => 1 - s * s) (-(1 * t + t * 1)) t := by
    simpa using hsq.const_sub 1
  have h := hnum.div hden ht
  unfold infiniteSubstitution
  convert h using 1
  have h2 : (1 : ℝ) - t ^ 2 ≠ 0 := by rwa [sq]
  field_simp
  ring

theorem ExpectedValueRange_unbounded (K : RandMath) (d : ContinuousDistribution)
    (funPtr : Dbl → Dbl) (minPoint maxPoint : Dbl)
    (hlt : Dbl.ge (rangeLowerBoundary d minPoint) (rangeUpperBoundary d maxPoint) = false)
    (hlo : isfinite (rangeLowerBoundary d minPoint) = false)
    (hup : isfinite (rangeUpperBoundary d maxPoint) = false) :
    ExpectedValueRange K d funPtr minPoint maxPoint =
      K.integral (fun x => (infiniteIntegrand funPtr d.f x).value) (fin (-1)) (fin 1) := by
  simp [ExpectedValueRange, hlt, hlo, hup]

/-- C6: for support unbounded on both sides `ExpectedValue(funPtr, startPoint)` hands
the integrator the interval `[-1, 1]` and the integrand `infiniteIntegrand`, and so
does `ExpectedValue(funPtr, minPoint, maxPoint)` when neither boundary is finite.
For every `t` with `|t| < 1` that integrand calls `funPtr` and `f` at
`x = t / (1 - t^2)`, returns `funPtr(x) * f(x) * (1 + t^2) / (1 - t^2)^2`, and divides
only by `1 - t^2` and `(1 - t^2)^2`, both nonzero; `(1 + t^2) / (1 - t^2)^2` is the
derivative of the substitution; and for every `t` with `|t| >= 1` the integrand
returns `0` with no call of `funPtr` or `f` and no division. -/
theorem ExpectedValue_infinite_integrand (K : RandMath) (d : ContinuousDistribution)
    (funPtr : Dbl → Dbl) (startPoint : Dbl)
    (hsupp : d.SupportType = SUPPORT_TYPE.INFINITE_T) :
    ExpectedValue K d funPtr startPoint =
      K.integral (fun x => (infiniteIntegrand funPtr d.f x).value) (fin (-1)) (fin 1) ∧
    (∀ minPoint maxPoint,
      Dbl.ge (rangeLowerBoundary d minPoint) (rangeUpperBoundary d maxPoint) = false →
      isfinite (rangeLowerBoundary d minPoint) = false →
      isfinite (rangeUpperBoundary d maxPoint) = false →
      ExpectedValueRange K d funPtr minPoint maxPoint =
        K.integral (fun x => (infiniteIntegrand funPtr d.f x).value) (fin (-1)) (fin 1)) ∧
    (∀ t : ℚ, |t| < 1 →
      infiniteIntegrand funPtr d.f (fin t) =
        ⟨funPtr (fin (t / (1 - t ^ 2))) * d.f (fin (t / (1 - t ^ 2))) * fin (1 + t ^ 2) /
            fin ((1 - t ^ 2) ^ 2),
          [fin (t / (1 - t ^ 2)), fin (t / (1 - t ^ 2))],
          [fin (1 - t ^ 2), fin ((1 - t ^ 2) ^ 2)]⟩ ∧
      t / (1 - t ^ 2) = infiniteSubstitution t ∧
      1 - t ^ 2 ≠ 0 ∧ (1 - t ^ 2) ^ 2 ≠ 0) ∧
    (∀ t : ℝ, |t| < 1 →
      HasDerivAt (fun s : ℝ => infiniteSubstitution s) ((1 + t ^ 2) / (1 - t ^ 2) ^ 2) t) ∧
    (∀ t : ℚ, 1 ≤ |t| →
      infiniteIntegrand funPtr d.f (fin t) = ⟨fin 0, [], []⟩) := by
  refine ⟨?_, fun minPoint maxPoint h1 h2 h3 =>
      ExpectedValueRange_unbounded K d funPtr minPoint maxPoint h1 h2 h3,
    fun t ht => ⟨infiniteIntegrand_of_abs_lt funPtr d.f t ht, ?_, ?_, ?_⟩,
    fun t ht => hasDerivAt_infiniteSubstitution t ?_,
    fun t ht => infiniteIntegrand_of_abs_ge funPtr d.f t ht⟩
  · simp [ExpectedValue, hsupp]
  · simp [infiniteSubstitution, sq]
  · rw [sq]
    exact one_sub_sq_ne_zero t ht
  · have h := one_sub_sq_ne_zero t ht
    rw [← sq] at h
    exact pow_ne_zero 2 h
  · have h := abs_lt.mp ht
    nlinarith [h.1, h.2]

/-- C6, witness: the distribution `twoSidedLomaxDistribution` on the whole line. -/
theorem ExpectedValue_infinite_integrand_witness :
    ExpectedValue constantKernel twoSidedLomaxDistribution (fun x => x) (fin 0) =
      constantKernel.integral
        (fun x => (infiniteIntegrand (fun x => x) twoSidedLomaxDistribution.f x).value)
        (fin (-1)) (fin 1) :=
  (ExpectedValue_infinite_integrand constantKernel twoSidedLomaxDistribution (fun x => x)
    (fin 0) rfl).1

/-! ## Expected values: finite support and the endpoint nudge -/

theorem GetLeftLimit_of_finite (d : ContinuousDistribution) (value eps : Dbl)
    (h : isfinite (d.f value) = true) : GetLeftLimit d value eps = value := by
  simp [GetLeftLimit, h]

theorem GetRightLimit_of_finite (d : ContinuousDistribution) (value eps : Dbl)
    (h : isfinite (d.f value) = true) : GetRightLimit d value eps = value := by
  simp [GetRightLimit, h]

theorem GetLeftLimit_of_not_finite (d : ContinuousDistribution) (m : ℚ)
    (h : isfinite (d.f (fin m)) = false) :
    GetLeftLimit d (fin m) epsilon =
      if |m| < 1 then fin (m - 1 / 10000000000) else fin (m * (9999 / 10000)) := by
  by_cases hm : |m| < 1 <;> simp [GetLeftLimit, h, hm, epsilon]

theorem GetRightLimit_of_not_finite (d : ContinuousDistribution) (m : ℚ)
    (h : isfinite (d.f (fin m)) = false) :
    GetRightLimit d (fin m) epsilon =
      if |m| < 1 then fin (m + 1 / 10000000000) else fin (m * (10001 / 10000)) := by
  by_cases hm : |m| < 1 <;> simp [GetRightLimit, h, hm, epsilon]

theorem ExpectedValueRange_bounded (K : RandMath) (d : ContinuousDistribution)
    (funPtr : Dbl → Dbl) (minPoint maxPoint : Dbl)
    (hlt : Dbl.ge (rangeLowerBoundary d minPoint) (rangeUpperBoundary d maxPoint) = false)
    (hlo : isfinite (rangeLowerBoundary d minPoint) = true)
    (hup : isfinite (rangeUpperBoundary d maxPoint) = true) :
    ExpectedValueRange K d funPtr minPoint maxPoint =
      K.integral (finiteIntegrand funPtr d.f)
        (rangeLowerBoundary d minPoint) (rangeUpperBoundary d maxPoint) := by
  simp [ExpectedValueRange, hlt, hlo, hup]

theorem ExpectedValue_of_finite (K : RandMath) (d : ContinuousDistribution)
    (funPtr : Dbl → Dbl) (startPoint : Dbl)
    (hsupp : d.SupportType = SUPPORT_TYPE.FINITE_T) :
    ExpectedValue K d funPtr startPoint =
      K.integral (finiteIntegrand funPtr d.f)
        (GetLeftLimit d d.MinValue epsilon) (GetRightLimit d d.MaxValue epsilon) := by
  simp [ExpectedValue, hsupp]

theorem Dbl.max_self (a : Dbl) : Dbl.max a a = a := by
  simp [Dbl.max]

theorem Dbl.min_self (a : Dbl) : Dbl.min a a = a := by
  simp [Dbl.min]

theorem GetLeftLimit_outward (d : ContinuousDistribution) (m : ℚ)
    (hf : isfinite (d.f (fin m)) = false) (hlow : -1 < m) :
    GetLeftLimit d (fin m) epsilon =
        fin (if m < 1 then m - 1 / 10000000000 else m * (9999 / 10000)) ∧
      Dbl.lt (GetLeftLimit d (fin m) epsilon) (fin m) = true := by
  rw [GetLeftLimit_of_not_finite d m hf]
  by_cases h1 : m < 1
  · have habs : |m| < 1 := abs_lt.mpr ⟨hlow, h1⟩
    simp [habs, h1]
  · have habs : ¬ |m| < 1 := fun h => h1 (abs_lt.mp h).2
    have hm1 : 1 ≤ m := not_lt.mp h1
    simp only [habs, h1, if_false, Dbl.lt_fin_fin, decide_eq_true_eq, true_and]
    linarith

theorem GetRightLimit_outward (d : ContinuousDistribution) (m : ℚ)
    (hf : isfinite (d.f (fin m)) = false) (hlow : -1 < m) :
    GetRightLimit d (fin m) epsilon =
        fin (if m < 1 then m + 1 / 10000000000 else m * (10001 / 10000)) ∧
      Dbl.gt (GetRightLimit d (fin m) epsilon) (fin m) = true := by
  rw [GetRightLimit_of_not_finite d m hf]
  by_cases h1 : m < 1
  · have habs : |m| < 1 := abs_lt.mpr ⟨hlow, h1⟩
    simp [habs, h1, Dbl.gt]
  · have habs : ¬ |m| < 1 := fun h => h1 (abs_lt.mp h).2
    have hm1 : 1 ≤ m := not_lt.mp h1
    simp only [habs, h1, if_false, Dbl.gt, Dbl.lt_fin_fin, decide_eq_true_eq, true_and]
    linarith

/-- C7, as the code has it: for finite support `ExpectedValue(funPtr, startPoint)`
integrates `funPtr(x) * f(x)` from `GetLeftLimit(MinValue())` to
`GetRightLimit(MaxValue())`, and `ExpectedValue(funPtr, minPoint, maxPoint)`, when
both its boundaries are finite and in order, from `GetLeftLimit(minPoint)` to
`GetRightLimit(maxPoint)`.  An endpoint at which the density is finite is used
unchanged.  An endpoint `> -1` at which the density is not finite is moved outward:
a lower bound `m` becomes `m - 1e-10` (for `|m| < 1`) or `0.9999 * m` (for `m >= 1`),
strictly below `m`, and an upper bound `m` becomes `m + 1e-10` (for `|m| < 1`) or
`1.0001 * m` (for `m >= 1`), strictly above `m`. -/
theorem ExpectedValue_finite_bounds (K : RandMath) (d : ContinuousDistribution)
    (funPtr : Dbl → Dbl) (startPoint : Dbl)
    (hsupp : d.SupportType = SUPPORT_TYPE.FINITE_T) :
    ExpectedValue K d funPtr startPoint =
      K.integral (finiteIntegrand funPtr d.f)
        (GetLeftLimit d d.MinValue epsilon) (GetRightLimit d d.MaxValue epsilon) ∧
    (∀ minPoint maxPoint, d.isRightBounded = true → d.isLeftBounded = true →
      Dbl.ge (GetLeftLimit d minPoint epsilon) (GetRightLimit d maxPoint epsilon) = false →
      isfinite (GetLeftLimit d minPoint epsilon) = true →
      isfinite (GetRightLimit d maxPoint epsilon) = true →
      ExpectedValueRange K d funPtr minPoint maxPoint =
        K.integral (finiteIntegrand funPtr d.f)
          (GetLeftLimit d minPoint epsilon) (GetRightLimit d maxPoint epsilon)) ∧
    (∀ x, finiteIntegrand funPtr d.f x = funPtr x * d.f x) ∧
    (∀ v, isfinite (d.f v) = true →
      GetLeftLimit d v epsilon = v ∧ GetRightLimit d v epsilon = v) ∧
    (∀ m : ℚ, isfinite (d.f (fin m)) = false → -1 < m →
      GetLeftLimit d (fin m) epsilon =
        fin (if m < 1 then m - 1 / 10000000000 else m * (9999 / 10000)) ∧
      Dbl.lt (GetLeftLimit d (fin m) epsilon) (fin m) = true) ∧
    (∀ m : ℚ, isfinite (d.f (fin m)) = false → -1 < m →
      GetRightLimit d (fin m) epsilon =
        fin (if m < 1 then m + 1 / 10000000000 else m * (10001 / 10000)) ∧
      Dbl.gt (GetRightLimit d (fin m) epsilon) (fin m) = true) := by
  refine ⟨ExpectedValue_of_finite K d funPtr startPoint hsupp, ?_, fun x => rfl,
    fun v hv => ⟨GetLeftLimit_of_finite d v _ hv, GetRightLimit_of_finite d v _ hv⟩,
    GetLeftLimit_outward d, GetRightLimit_outward d⟩
  intro minPoint maxPoint hrb hlb hlt hlo hup
  have h1 : rangeLowerBoundary d minPoint = GetLeftLimit d minPoint epsilon := by
    simp [rangeLowerBoundary, hrb, Dbl.max_self]
  have h2 : rangeUpperBoundary d maxPoint = GetRightLimit d maxPoint epsilon := by
    simp [rangeUpperBoundary, hlb, Dbl.min_self]
  have h := ExpectedValueRange_bounded K d funPtr minPoint maxPoint
  rw [h1, h2] at h
  exact h hlt hlo hup

/-- C7, witness: the uniform distribution on `[0, 1]`, whose density is finite at
both endpoints, is integrated over `[0, 1]` itself. -/
theorem ExpectedValue_finite_bounds_witness :
    GetLeftLimit uniformDistribution uniformDistribution.MinValue epsilon = fin 0 ∧
    GetRightLimit uniformDistribution uniformDistribution.MaxValue epsilon = fin 1 :=
  have h := ExpectedValue_finite_bounds constantKernel uniformDistribution (fun x => x)
    (fin 0) rfl
  ⟨(h.2.2.2.1 (fin 0) rfl).1, (h.2.2.2.1 (fin 1) rfl).2⟩

/-- C7, counterexample: on `[0, 1]` with a density that is `+inf` at both endpoints,
the lower integration bound is `-1e-10`, below the minimum `0` and not above it, and
the upper integration bound is `1.0001`, above the maximum `1` and not below it. -/
theorem ExpectedValue_finite_bounds_not_inward :
    endpointSingularDistribution.SupportType = SUPPORT_TYPE.FINITE_T ∧
    isfinite (endpointSingularDistribution.f endpointSingularDistribution.MinValue) = false ∧
    isfinite (endpointSingularDistribution.f endpointSingularDistribution.MaxValue) = false ∧
    GetLeftLimit endpointSingularDistribution endpointSingularDistribution.MinValue epsilon =
      fin (-1 / 10000000000) ∧
    GetRightLimit endpointSingularDistribution endpointSingularDistribution.MaxValue epsilon =
      fin (10001 / 10000) ∧
    ¬ (Dbl.gt (GetLeftLimit endpointSingularDistribution
        endpointSingularDistribution.MinValue epsilon)
        endpointSingularDistribution.MinValue = true) ∧
    ¬ (Dbl.lt (GetRightLimit endpointSingularDistribution
        endpointSingularDistribution.MaxValue epsilon)
        endpointSingularDistribution.MaxValue = true) ∧
    ExpectedValue constantKernel endpointSingularDistribution (fun x => x) (fin 0) =
      constantKernel.integral (finiteIntegrand (fun x => x) endpointSingularDistribution.f)
        (fin (-1 / 10000000000)) (fin (10001 / 10000)) := by
  have hmin : endpointSingularDistribution.MinValue = fin 0 := rfl
  have hmax : endpointSingularDistribution.MaxValue = fin 1 := rfl
  have hf0 : endpointSingularDistribution.f (fin 0) = pinf := by
    simp [endpointSingularDistribution]
  have hf1 : endpointSingularDistribution.f (fin 1) = pinf := by
    simp [endpointSingularDistribution]
  have hl : GetLeftLimit endpointSingularDistribution (fin 0) epsilon =
      fin (-1 / 10000000000) := by
    rw [GetLeftLimit_of_not_finite _ 0 (by rw [hf0]; rfl)]
    norm_num
  have hr : GetRightLimit endpointSingularDistribution (fin 1) epsilon =
      fin (10001 / 10000) := by
    rw [GetRightLimit_of_not_finite _ 1 (by rw [hf1]; rfl)]
    norm_num
  rw [ExpectedValue_of_finite _ _ _ _ rfl, hmin, hmax, hf0, hf1, hl, hr]
  refine ⟨rfl, rfl, rfl, rfl, rfl, ?_, ?_, rfl⟩
  · simp [Dbl.gt]
  · simp
    norm_num

/-! ## Hazard -/

theorem Dbl.lt_false_of_le (a x : Dbl) (h : Dbl.le a x = true) : Dbl.lt x a = false := by
  cases a <;> cases x <;> simp_all [Dbl.le, Dbl.lt]

theorem Dbl.lt_false_of_lt_of_le (x a b : Dbl) (h1 : Dbl.lt x a = true)
    (h2 : Dbl.le a b = true) : Dbl.lt b x = false := by
  cases a <;> cases x <;> cases b <;> simp_all [Dbl.le, Dbl.lt]
  linarith

/-- C8: for a distribution whose support bounds are ordered, `MinValue <= MaxValue`,
and every `x`: `Hazard(x)` is `0` when `x < MinValue`, is `NAN` when `x > MaxValue`,
and is the quotient `f(x) / S(x)` when `MinValue <= x <= MaxValue`, both endpoints
included. -/
theorem Hazard_cases (d : ContinuousDistribution) (x : Dbl)
    (hsupp : Dbl.le d.MinValue d.MaxValue = true) :
    (Dbl.lt x d.MinValue = true → Hazard d x = fin 0) ∧
    (Dbl.gt x d.MaxValue = true → Hazard d x = nan) ∧
    (Dbl.le d.MinValue x = true → Dbl.le x d.MaxValue = true →
      Hazard d x = d.f x / d.S x) := by
  refine ⟨fun h => ?_, fun h => ?_, fun h1 h2 => ?_⟩
  · simp [Hazard, h]
  · have hmin : Dbl.lt x d.MinValue = false := by
      cases hx : Dbl.lt x d.MinValue
      · rfl
      · have h3 := Dbl.lt_false_of_lt_of_le x d.MinValue d.MaxValue hx hsupp
        rw [Dbl.gt] at h
        rw [h] at h3
        exact Bool.noConfusion h3
    simp [Hazard, hmin, h]
  · have hmin := Dbl.lt_false_of_le d.MinValue x h1
    have hmax : Dbl.gt x d.MaxValue = false := Dbl.lt_false_of_le x d.MaxValue h2
    simp [Hazard, hmin, hmax]

/-- C8, witness: the uniform distribution on `[0, 1]` at the points `-1`, `2`, `1/2`
and at the endpoint `1`. -/
theorem Hazard_cases_witness :
    Hazard uniformDistribution (fin (-1)) = fin 0 ∧
    Hazard uniformDistribution (fin 2) = nan ∧
    Hazard uniformDistribution (fin (1 / 2)) =
      uniformDistribution.f (fin (1 / 2)) / uniformDistribution.S (fin (1 / 2)) ∧
    Hazard uniformDistribution (fin 1) =
      uniformDistribution.f (fin 1) / uniformDistribution.S (fin 1) :=
  have hsupp : Dbl.le uniformDistribution.MinValue uniformDistribution.MaxValue = true := by
    simp [uniformDistribution]
  have hlt : Dbl.lt (fin (-1)) uniformDistribution.MinValue = true := by
    simp [uniformDistribution]
  have hgt : Dbl.gt (fin 2) uniformDistribution.MaxValue = true := by
    simp [uniformDistribution, Dbl.gt]
  ⟨(Hazard_cases uniformDistribution (fin (-1)) hsupp).1 hlt,
    (Hazard_cases uniformDistribution (fin 2) hsupp).2.1 hgt,
    (Hazard_cases uniformDistribution (fin (1 / 2)) hsupp).2.2
      (by simp [uniformDistribution]) (by simp [uniformDistribution]; norm_num),
    (Hazard_cases uniformDistribution (fin 1) hsupp).2.2
      (by simp [uniformDistribution]) (by simp [uniformDistribution])⟩

/-! ## `GeometricRand`: choice of the generator -/

namespace GeometricRand

theorem fillEach_length {σ : Type} (gen : σ → ℤ × σ) (buf : List ℤ) (s : σ) :
    (fillEach gen buf s).1.length = buf.length := by
  induction buf generalizing s with
  | nil => rfl
  | cons b rest ih => simp [fillEach, ih]

theorem fillEach_congr_length {σ : Type} (gen : σ → ℤ × σ) (buf other : List ℤ) (s : σ)
    (h : other.length = buf.length) : fillEach gen other s = fillEach gen buf s := by
  induction buf generalizing other s with
  | nil =>
    cases other with
    | nil => rfl
    | cons o os => simp at h
  | cons b rest ih =>
    cases other with
    | nil => simp at h
    | cons o os =>
      have h2 : os.length = rest.length := by simpa using h
      simp [fillEach, ih os (gen s).2 h2]

theorem fillEach_getElem {σ : Type} (gen : σ → ℤ × σ) (buf : List ℤ) (s : σ) (i : ℕ)
    (hi : i < buf.length) :
    (fillEach gen buf s).1[i]? = some (gen ((fun t => (gen t).2)^[i] s)).1 := by
  induction buf generalizing s i with
  | nil => simp at hi
  | cons b rest ih =>
    cases i with
    | zero => simp [fillEach]
    | succ j =>
      have hj : j < rest.length := by simpa using hi
      simp [fillEach, ih (gen s).2 j hj]

theorem variate_eq_generator {σ : Type} (G : Generators σ) (X : GeometricRand) :
    variate G X =
      if X.p < 8 / 100 then G.variateGeometricThroughExponential X
      else G.variateGeometricByTable X := by
  funext s
  by_cases h : X.p < 8 / 100 <;> simp [variate, h]

theorem sample_eq_fillEach {σ : Type} (G : Generators σ) (X : GeometricRand)
    (outputData : List ℤ) (s : σ) :
    sample G X outputData s = fillEach (variate G X) outputData s := by
  rw [variate_eq_generator]
  by_cases h : X.p < 8 / 100 <;> simp [sample, h]

/-- C9: the generator of a `GeometricRand` is chosen by its probability `p` alone:
`variate()` is `variateGeometricThroughExponential()` when `p < 0.08` and
`variateGeometricByTable()` otherwise.  `sample(outputData)` is the slot-by-slot
loop of that same `variate()`: the result has the length of `outputData`, does not
depend on what `outputData` held before, and its slot `i` is the value `variate()`
returns in the generator state reached after `i` earlier draws. -/
theorem sample_uses_variate_generator {σ : Type} (G : Generators σ) (X : GeometricRand)
    (outputData : List ℤ) (s : σ) :
    (X.p < 8 / 100 → variate G X s = G.variateGeometricThroughExponential X s) ∧
    (¬ X.p < 8 / 100 → variate G X s = G.variateGeometricByTable X s) ∧
    sample G X outputData s = fillEach (variate G X) outputData s ∧
    (sample G X outputData s).1.length = outputData.length ∧
    (∀ other : List ℤ, other.length = outputData.length →
      sample G X other s = sample G X outputData s) ∧
    (∀ i, i < outputData.length →
      (sample G X outputData s).1[i]? =
        some (variate G X ((fun t => (variate G X t).2)^[i] s)).1) := by
  refine ⟨fun h => by simp [variate, h], fun h => by simp [variate, h],
    sample_eq_fillEach G X outputData s, ?_, fun other h => ?_, fun i hi => ?_⟩
  · rw [sample_eq_fillEach, fillEach_length]
  · rw [sample_eq_fillEach, sample_eq_fillEach, fillEach_congr_length _ _ _ _ h]
  · rw [sample_eq_fillEach, fillEach_getElem _ _ _ _ hi]

end GeometricRand

/-- C9, witness: a `GeometricRand` with `p = 1/2` filling a buffer of three slots. -/
theorem GeometricRand.sample_uses_variate_generator_witness :
    GeometricRand.sample counterGenerators ⟨1 / 2, 1 / 2⟩ [0, 0, 0] 5 =
      GeometricRand.fillEach (GeometricRand.variate counterGenerators ⟨1 / 2, 1 / 2⟩)
        [0, 0, 0] 5 :=
  (GeometricRand.sample_uses_variate_generator counterGenerators ⟨1 / 2, 1 / 2⟩
    [0, 0, 0] 5).2.2.1

/-! ## `GeometricRand`: inversion by sequential search -/

namespace GeometricRand

/-! ### Rounding to `double` -/

theorem log_two_eq (x : ℚ) (e : ℤ) (hx : 0 < x) (h1 : 2 ^ e ≤ x) (h2 : x < 2 ^ (e + 1)) :
    Int.log 2 x = e := by
  have ha : e ≤ Int.log 2 x :=
    (Int.zpow_le_iff_le_log (by norm_num) hx).mp (by exact_mod_cast h1)
  have hb : Int.log 2 x < e + 1 :=
    (Int.lt_zpow_iff_log_lt (by norm_num) hx).mp (by exact_mod_cast h2)
  omega

/-- The value of `roundDouble` at a positive `x` with `2^e <= x < 2^(e + 1)` in the
normal range that is nearer to `n * 2^(e - 52)` than half a unit in the last place. -/
theorem roundDouble_eq (x : ℚ) (e n : ℤ) (hx : 0 < x) (he : -1022 ≤ e) (h1 : 2 ^ e ≤ x)
    (h2 : x < 2 ^ (e + 1)) (hn : |x / 2 ^ (e - 52) - n| < 1 / 2) :
    roundDouble x = n * 2 ^ (e - 52) := by
  have hlog : Int.log 2 x = e := log_two_eq x e hx h1 h2
  have hmax : max e (-1022) = e := max_eq_left he
  have hx0 : x ≠ 0 := ne_of_gt hx
  have habs := abs_lt.mp hn
  simp only [roundDouble, hx0, if_false, abs_of_pos hx, hlog, hmax, hx, if_true]
  by_cases hge : (n : ℚ) ≤ x / 2 ^ (e - 52)
  · have hfloor : ⌊x / (2 : ℚ) ^ (e - 52)⌋ = n := by
      rw [Int.floor_eq_iff]
      constructor
      · exact hge
      · linarith [habs.2]
    rw [hfloor]
    have hr : x / (2 : ℚ) ^ (e - 52) - n < 1 / 2 := habs.2
    rw [if_pos hr]
  · have hlt : x / (2 : ℚ) ^ (e - 52) < n := not_le.mp hge
    have hfloor : ⌊x / (2 : ℚ) ^ (e - 52)⌋ = n - 1 := by
      rw [Int.floor_eq_iff]
      constructor
      · push_cast
        linarith [habs.1]
      · push_cast
        linarith
    rw [hfloor]
    have hr1 : ¬ x / (2 : ℚ) ^ (e - 52) - ((n - 1 : ℤ) : ℚ) < 1 / 2 := by
      push_cast
      linarith [habs.1]
    have hr2 : 1 / 2 < x / (2 : ℚ) ^ (e - 52) - ((n - 1 : ℤ) : ℚ) := by
      push_cast
      linarith [habs.1]
    rw [if_neg hr1, if_pos hr2]
    push_cast
    ring

/-- The value of `roundDouble` at a positive `x` in the normal range half-way between
the doubles `f * 2^(e - 52)` and `(f + 1) * 2^(e - 52)`: the one with the even
significand. -/
theorem roundDouble_tie (x : ℚ) (e f : ℤ) (hx : 0 < x) (he : -1022 ≤ e) (h1 : 2 ^ e ≤ x)
    (h2 : x < 2 ^ (e + 1)) (hm : x / 2 ^ (e - 52) = f + 1 / 2) :
    roundDouble x = (if f % 2 = 0 then f else f + 1 : ℤ) * 2 ^ (e - 52) := by
  have hlog : Int.log 2 x = e := log_two_eq x e hx h1 h2
  have hmax : max e (-1022) = e := max_eq_left he
  have hx0 : x ≠ 0 := ne_of_gt hx
  have hfloor : ⌊x / (2 : ℚ) ^ (e - 52)⌋ = f := by
    rw [Int.floor_eq_iff, hm]
    constructor <;> linarith
  simp only [roundDouble, hx0, if_false, abs_of_pos hx, hlog, hmax, hx, if_true, hfloor]
  have hr : x / (2 : ℚ) ^ (e - 52) - (f : ℚ) = 1 / 2 := by rw [hm]; ring
  rw [hr, if_neg (lt_irrefl _), if_neg (lt_irrefl _)]

/-- A `double` in `[0, 1)` is at most `1 - 2^-53`. -/
theorem le_of_roundDouble_eq (x : ℚ) (h1 : x < 1) (hx : roundDouble x = x) :
    x ≤ 1 - 1 / 2 ^ 53 := by
  by_cases hhalf : x < 1 / 2
  · have h : (1 / 2 : ℚ) ≤ 1 - 1 / 2 ^ 53 := by norm_num
    linarith
  · have hge : (1 / 2 : ℚ) ≤ x := not_lt.mp hhalf
    have hpos : 0 < x := by linarith
    have hlog : Int.log 2 x = -1 :=
      log_two_eq x (-1) hpos (by norm_num; linarith) (by norm_num; exact h1)
    have hmax : max (-1 : ℤ) (-1022) = -1 := by norm_num
    obtain ⟨n, hn⟩ : ∃ n : ℤ, roundDouble x = n * 2 ^ ((-1 : ℤ) - 52) := by
      simp only [roundDouble, ne_of_gt hpos, if_false, abs_of_pos hpos, hlog, hmax, hpos,
        if_true]
      exact ⟨_, rfl⟩
    rw [hx] at hn
    have hpow : (2 : ℚ) ^ ((-1 : ℤ) - 52) = 1 / 2 ^ 53 := by norm_num
    rw [hpow] at hn
    have hn1 : (n : ℚ) < 9007199254740992 := by
      rw [hn] at h1
      norm_num at h1
      linarith
    have hn2 : n < 9007199254740992 := by exact_mod_cast hn1
    have hn3 : n ≤ 9007199254740991 := by omega
    have hn4 : (n : ℚ) ≤ 9007199254740991 := by exact_mod_cast hn3
    rw [hn]
    norm_num
    linarith
/-! ### The loop in exact arithmetic -/

theorem variateLoop_run (U q : ℚ) (k : ℕ) (hk : U ≤ 1 - q ^ (k + 1))
    (hmax : (k : ℤ) ≤ 2147483647) :
    ∀ fuel n : ℕ, n ≤ k → k - n < fuel →
      (∀ j, n ≤ j → j < k → 1 - q ^ (j + 1) < U) →
      variateLoop id U q fuel ((1 - q) * q ^ n) (1 - q ^ (n + 1)) (n : ℤ) =
        some (k : ℤ) := by
  intro fuel
  induction fuel with
  | zero =>
    intro n _ h
    omega
  | succ fuel ih =>
    intro n hn hfuel hlow
    rcases Nat.eq_or_lt_of_le hn with heq | hlt
    · subst heq
      have hle : ¬ U > 1 - q ^ (n + 1) := not_lt.mpr hk
      simp [variateLoop, hle]
    · have hgt : U > 1 - q ^ (n + 1) := hlow n le_rfl hlt
      have hprod : (1 - q) * q ^ n * q = (1 - q) * q ^ (n + 1) := by ring
      have hsum : 1 - q ^ (n + 1) + (1 - q) * q ^ (n + 1) = 1 - q ^ (n + 1 + 1) := by ring
      have hx : (n : ℤ) + 1 = ((n + 1 : ℕ) : ℤ) := by push_cast; ring
      have hint : ¬ ((2147483647 : ℤ) ≤ (n : ℤ)) := by omega
      have hstep : variateLoop id U q (fuel + 1) ((1 - q) * q ^ n) (1 - q ^ (n + 1)) (n : ℤ) =
          variateLoop id U q fuel ((1 - q) * q ^ n * q)
            (1 - q ^ (n + 1) + (1 - q) * q ^ n * q) ((n : ℤ) + 1) := by
        simp [variateLoop, hgt, hint]
      rw [hstep, hprod, hsum, hx]
      exact ih (n + 1) hlt (by omega) (fun j hj hjk => hlow j (by omega) hjk)

theorem variateLoop_out_of_fuel (U q : ℚ) (k : ℕ) :
    ∀ fuel n : ℕ, fuel + n ≤ k →
      (∀ j, n ≤ j → j < k → 1 - q ^ (j + 1) < U) →
      variateLoop id U q fuel ((1 - q) * q ^ n) (1 - q ^ (n + 1)) (n : ℤ) = none := by
  intro fuel
  induction fuel with
  | zero =>
    intro n _ _
    rfl
  | succ fuel ih =>
    intro n hfuel hlow
    have hgt : U > 1 - q ^ (n + 1) := hlow n le_rfl (by omega)
    have hprod : (1 - q) * q ^ n * q = (1 - q) * q ^ (n + 1) := by ring
    have hsum : 1 - q ^ (n + 1) + (1 - q) * q ^ (n + 1) = 1 - q ^ (n + 1 + 1) := by ring
    have hx : (n : ℤ) + 1 = ((n + 1 : ℕ) : ℤ) := by push_cast; ring
    by_cases hint : (2147483647 : ℤ) ≤ (n : ℤ)
    · simp [variateLoop, hgt, hint]
    · have hstep : variateLoop id U q (fuel + 1) ((1 - q) * q ^ n) (1 - q ^ (n + 1)) (n : ℤ) =
          variateLoop id U q fuel ((1 - q) * q ^ n * q)
            (1 - q ^ (n + 1) + (1 - q) * q ^ n * q) ((n : ℤ) + 1) := by
        simp [variateLoop, hgt, hint]
      rw [hstep, hprod, hsum, hx]
      exact ih (n + 1) (by omega) (fun j hj hjk => hlow j (by omega) hjk)

/-- When the least index is above `INT_MAX` the counter overflows before the loop can
stop. -/
theorem variateLoop_overflow (U q : ℚ) (k : ℕ) (hmax : (2147483647 : ℤ) < (k : ℤ)) :
    ∀ fuel n : ℕ, (n : ℤ) ≤ 2147483647 →
      (∀ j, n ≤ j → j < k → 1 - q ^ (j + 1) < U) →
      variateLoop id U q fuel ((1 - q) * q ^ n) (1 - q ^ (n + 1)) (n : ℤ) = none := by
  intro fuel
  induction fuel with
  | zero =>
    intro n _ _
    rfl
  | succ fuel ih =>
    intro n hn hlow
    have hgt : U > 1 - q ^ (n + 1) := hlow n le_rfl (by omega)
    have hprod : (1 - q) * q ^ n * q = (1 - q) * q ^ (n + 1) := by ring
    have hsum : 1 - q ^ (n + 1) + (1 - q) * q ^ (n + 1) = 1 - q ^ (n + 1 + 1) := by ring
    have hx : (n : ℤ) + 1 = ((n + 1 : ℕ) : ℤ) := by push_cast; ring
    by_cases hint : (2147483647 : ℤ) ≤ (n : ℤ)
    · simp [variateLoop, hgt, hint]
    · have hstep : variateLoop id U q (fuel + 1) ((1 - q) * q ^ n) (1 - q ^ (n + 1)) (n : ℤ) =
          variateLoop id U q fuel ((1 - q) * q ^ n * q)
            (1 - q ^ (n + 1) + (1 - q) * q ^ n * q) ((n : ℤ) + 1) := by
        simp [variateLoop, hgt, hint]
      rw [hstep, hprod, hsum, hx]
      exact ih (n + 1) (by push_cast; omega) (fun j hj hjk => hlow j (by omega) hjk)

theorem exists_le_cdf (U q : ℚ) (hq0 : 0 ≤ q) (hq1 : q < 1) (hU : U < 1) :
    ∃ k : ℕ, U ≤ 1 - q ^ (k + 1) := by
  obtain ⟨n, hn⟩ := exists_pow_lt_of_lt_one (sub_pos.mpr hU) hq1
  refine ⟨n, ?_⟩
  have h : q ^ (n + 1) ≤ q ^ n := pow_le_pow_of_le_one hq0 hq1.le (Nat.le_succ n)
  linarith

/-- Below `INT_MAX` the sum `k + 1` does not overflow and `F(k) = 1 - q^(k + 1)`. -/
theorem F_natCast (X : GeometricRand) (j : ℕ) (hj : (j : ℤ) < 2147483647) :
    F X (j : ℤ) = some (1 - X.q ^ (j + 1)) := by
  have h : ¬ ((j : ℤ) < 0) := by omega
  have h1 : ¬ ((2147483647 : ℤ) ≤ (j : ℤ)) := by omega
  have h2 : ((j : ℤ) + 1).toNat = j + 1 := by omega
  simp [F, h, h1, h2]

theorem P_natCast (X : GeometricRand) (j : ℕ) : P X (j : ℤ) = X.p * X.q ^ j := by
  have h : ¬ ((j : ℤ) < 0) := by omega
  simp [P, h]

theorem pow_441_le : ((23 : ℚ) / 25) ^ (440 + 1) ≤ 1 / 2 ^ 53 := by
  norm_num

theorem chain_contradiction (U a b c : ℚ) (h : 1 - a < U) (h2 : a ≤ b) (h3 : b ≤ c)
    (hU : U ≤ 1 - c) : False := by
  linarith

/-- C10, in exact arithmetic (`round` is the identity: the products and sums of the
loop are not rounded): in the inversion branch of the static `variate(probability)`,
for `0.08 <= probability <= 1` and a uniform draw `U` with `0 <= U < 1`, let `k` be the
least index `x >= 0` with `U <= 1 - (1 - probability)^(x + 1)`, which is `F(x)`.  When `U`
is a `double`, and whenever `k` is below `2^31`, the loop stops and the function
returns `k` as soon as it is allowed more than `k` tests of the loop condition, and it
never returns anything else; a `double` below `1` is at most `1 - 2^-53`, and then `k`
is below `2^31`; for `k` from `2^31` on the `int` counter overflows and there is no
result.  The least index is `j` exactly when `U` lies between
`1 - (1 - probability)^j` (`0` for `j = 0`) and `1 - (1 - probability)^(j + 1)`, above the
lower end strictly for `j >= 1`, an interval of length
`P(j) = probability * (1 - probability)^j`. -/
theorem variateStatic_least_index {σ : Type} (G : Generators σ) (probability : ℚ) (s : σ)
    (hp : 8 / 100 ≤ probability) (hp1 : probability ≤ 1)
    (hU0 : 0 ≤ (G.standardVariate s).1) (hU1 : (G.standardVariate s).1 < 1) :
    ∃ k : ℕ,
      (roundDouble (G.standardVariate s).1 = (G.standardVariate s).1 → ∀ fuel, k < fuel →
        variateStatic id G fuel probability s = some ((k : ℤ), (G.standardVariate s).2)) ∧
      ((k : ℤ) < 2 ^ 31 → ∀ fuel, k < fuel →
        variateStatic id G fuel probability s = some ((k : ℤ), (G.standardVariate s).2)) ∧
      (∀ fuel, fuel ≤ k → variateStatic id G fuel probability s = none) ∧
      (2 ^ 31 ≤ (k : ℤ) → ∀ fuel, variateStatic id G fuel probability s = none) ∧
      (G.standardVariate s).1 ≤ 1 - (1 - probability) ^ (k + 1) ∧
      (∀ j : ℕ, j < k → ¬ (G.standardVariate s).1 ≤ 1 - (1 - probability) ^ (j + 1)) ∧
      (∀ j : ℕ, (j : ℤ) < 2147483647 →
        F ⟨probability, 1 - probability⟩ (j : ℤ) = some (1 - (1 - probability) ^ (j + 1))) ∧
      (∀ j : ℕ, j = k ↔
        ((if j = 0 then 0 else 1 - (1 - probability) ^ j) ≤ (G.standardVariate s).1 ∧
          (1 ≤ j → 1 - (1 - probability) ^ j < (G.standardVariate s).1) ∧
          (G.standardVariate s).1 ≤ 1 - (1 - probability) ^ (j + 1))) ∧
      (∀ j : ℕ,
        (1 - (1 - probability) ^ (j + 1)) - (if j = 0 then 0 else 1 - (1 - probability) ^ j) =
          P ⟨probability, 1 - probability⟩ (j : ℤ) ∧
        P ⟨probability, 1 - probability⟩ (j : ℤ) = probability * (1 - probability) ^ j) ∧
      (roundDouble (G.standardVariate s).1 = (G.standardVariate s).1 →
        (G.standardVariate s).1 ≤ 1 - 1 / 2 ^ 53) ∧
      ((G.standardVariate s).1 ≤ 1 - 1 / 2 ^ 53 → (k : ℤ) < 2 ^ 31) := by
  have hq0 : (0 : ℚ) ≤ 1 - probability := by linarith
  have hq1 : 1 - probability < 1 := by linarith
  have hq92 : 1 - probability ≤ 23 / 25 := by linarith
  have hex := exists_le_cdf (G.standardVariate s).1 (1 - probability) hq0 hq1 hU1
  have hk := Nat.find_spec hex
  have hmin : ∀ j, j < Nat.find hex →
      1 - (1 - probability) ^ (j + 1) < (G.standardVariate s).1 :=
    fun j hj => not_le.mp (Nat.find_min hex hj)
  have hnot : ¬ probability < 8 / 100 := not_lt.mpr hp
  have hanti : ∀ a b : ℕ, a ≤ b → (1 - probability) ^ b ≤ (1 - probability) ^ a :=
    fun a b hab => pow_le_pow_of_le_one hq0 hq1.le hab
  have hk440 : (G.standardVariate s).1 ≤ 1 - 1 / 2 ^ 53 → Nat.find hex ≤ 440 := by
    intro hU
    by_contra hcon
    have h := hmin 440 (by omega)
    have h2 : (1 - probability) ^ (440 + 1) ≤ (23 / 25 : ℚ) ^ (440 + 1) :=
      pow_le_pow_left₀ hq0 hq92 (440 + 1)
    exact chain_contradiction _ _ _ _ h h2 pow_441_le hU
  have hrun : ((Nat.find hex : ℕ) : ℤ) ≤ 2147483647 → ∀ fuel, Nat.find hex < fuel →
      variateStatic id G fuel probability s =
        some (((Nat.find hex : ℕ) : ℤ), (G.standardVariate s).2) := by
    intro hmax2 fuel hfuel
    have h := variateLoop_run (G.standardVariate s).1 (1 - probability) (Nat.find hex) hk hmax2
      fuel 0 (Nat.zero_le _) (by omega) (fun j _ hj => hmin j hj)
    simp only [pow_zero, mul_one, zero_add, pow_one, sub_sub_cancel, Nat.cast_zero] at h
    simp [variateStatic, hnot, h]
  refine ⟨Nat.find hex, ?_, ?_, ?_, ?_, hk, fun j hj => Nat.find_min hex hj,
    fun j hj => F_natCast _ j hj, ?_, ?_, fun hd => le_of_roundDouble_eq _ hU1 hd, ?_⟩
  · intro hd
    have h440 := hk440 (le_of_roundDouble_eq _ hU1 hd)
    exact hrun (by omega)
  · intro hmax
    have h31 : (2 : ℤ) ^ 31 = 2147483648 := by norm_num
    rw [h31] at hmax
    exact hrun (by omega)
  · intro fuel hfuel
    have h := variateLoop_out_of_fuel (G.standardVariate s).1 (1 - probability) (Nat.find hex)
      fuel 0 (by omega) (fun j _ hj => hmin j hj)
    simp only [pow_zero, mul_one, zero_add, pow_one, sub_sub_cancel, Nat.cast_zero] at h
    simp [variateStatic, hnot, h]
  · intro hmax fuel
    have h31 : (2 : ℤ) ^ 31 = 2147483648 := by norm_num
    have hmax2 : (2147483647 : ℤ) < ((Nat.find hex : ℕ) : ℤ) := by
      rw [h31] at hmax
      omega
    have h := variateLoop_overflow (G.standardVariate s).1 (1 - probability) (Nat.find hex)
      hmax2 fuel 0 (by norm_num) (fun j _ hj => hmin j hj)
    simp only [pow_zero, mul_one, zero_add, pow_one, sub_sub_cancel, Nat.cast_zero] at h
    simp [variateStatic, hnot, h]
  · intro j
    constructor
    · intro hj
      subst hj
      refine ⟨?_, ?_, hk⟩
      · by_cases h0 : Nat.find hex = 0
        · simp [h0, hU0]
        · have h := hmin (Nat.find hex - 1) (by omega)
          have h1 : Nat.find hex - 1 + 1 = Nat.find hex := by omega
          rw [h1] at h
          simp only [h0, if_false]
          exact h.le
      · intro h1
        have h := hmin (Nat.find hex - 1) (by omega)
        have h2 : Nat.find hex - 1 + 1 = Nat.find hex := by omega
        rw [h2] at h
        exact h
    · rintro ⟨_, hlow, hup⟩
      have hle : Nat.find hex ≤ j := Nat.find_min' hex hup
      rcases Nat.eq_or_lt_of_le hle with heq | hlt
      · exact heq.symm
      · exfalso
        have h := hlow (by omega)
        have h2 := hanti (Nat.find hex + 1) j (by omega)
        linarith
  · intro j
    rw [P_natCast]
    refine ⟨?_, rfl⟩
    cases j with
    | zero => simp
    | succ i =>
      simp only [Nat.succ_ne_zero, if_false]
      ring
  · intro hU
    have hcast : ((Nat.find hex : ℕ) : ℤ) ≤ 440 := by exact_mod_cast hk440 hU
    exact lt_of_le_of_lt hcast (by norm_num)

/-- C10, witness: exact arithmetic, `probability = 1/2` and the draw `U = 3/4`; the
function returns `1`, the least `x` with `3/4 <= 1 - (1/2)^(x + 1)`. -/
theorem variateStatic_least_index_witness :
    variateStatic id counterGenerators 2 (1 / 2) 0 = some (1, 1) := by
  obtain ⟨k, -, hrun, -, -, -, -, -, hiff, -, -, -⟩ :=
    variateStatic_least_index counterGenerators (1 / 2) 0 (by norm_num) (by norm_num)
      (by norm_num [counterGenerators]) (by norm_num [counterGenerators])
  have hk : 1 = k := by
    have h := (hiff 1).mpr
    norm_num [counterGenerators] at h
    exact h
  subst hk
  exact hrun (by norm_num) 2 (by norm_num)

/-! ### The loop in `double` arithmetic -/

/-- The literal `0.08` as a `double`: `0x1.47ae147ae147bp-4`. -/
theorem roundDouble_threshold :
    roundDouble (8 / 100) = 5764607523034235 / 72057594037927936 := by
  rw [roundDouble_eq (8 / 100) (-4) 5764607523034235 (by norm_num) (by norm_num)
    (by norm_num) (by norm_num) (by norm_num [abs_lt])]
  norm_num

/-- The difference `q = 1 - probability` at `doubleProbability` is the `double`
`0x1.999999999999ap-1` (the one nearest to `0.8`) and is not rounded. -/
theorem roundDouble_q :
    roundDouble (1 - doubleProbability) = 3602879701896397 / 4503599627370496 ∧
    1 - doubleProbability = 3602879701896397 / 4503599627370496 := by
  rw [roundDouble_eq (1 - doubleProbability) (-1) 7205759403792794
    (by norm_num [doubleProbability]) (by norm_num) (by norm_num [doubleProbability])
    (by norm_num [doubleProbability]) (by norm_num [doubleProbability, abs_lt])]
  norm_num [doubleProbability]

/-- The product `prod * q` of the first pass in `double` arithmetic is
`0x1.47ae147ae147ap-3`, above the exact product. -/
theorem roundDouble_prod :
    roundDouble (doubleProbability * (3602879701896397 / 4503599627370496)) =
      2882303761517117 / 18014398509481984 ∧
    doubleProbability * (3602879701896397 / 4503599627370496) <
      2882303761517117 / 18014398509481984 := by
  rw [roundDouble_eq (doubleProbability * (3602879701896397 / 4503599627370496)) (-3)
    5764607523034234 (by norm_num [doubleProbability]) (by norm_num)
    (by norm_num [doubleProbability]) (by norm_num [doubleProbability])
    (by norm_num [doubleProbability, abs_lt])]
  norm_num [doubleProbability]

/-- The sum `sum + prod` of the first pass in `double` arithmetic is the draw
`doubleDraw = 0x1.70a3d70a3d709p-2`. -/
theorem roundDouble_sum :
    roundDouble (doubleProbability + 2882303761517117 / 18014398509481984) = doubleDraw := by
  rw [roundDouble_eq (doubleProbability + 2882303761517117 / 18014398509481984) (-2)
    6485183463413513 (by norm_num [doubleProbability]) (by norm_num)
    (by norm_num [doubleProbability]) (by norm_num [doubleProbability])
    (by norm_num [doubleProbability, abs_lt])]
  norm_num [doubleDraw]

/-- In `double` arithmetic, at `doubleProbability` and the draw `doubleDraw`, the
function returns `1` for every fuel from `2` on. -/
theorem variateStatic_double_run (fuel : ℕ) (hfuel : 2 ≤ fuel) :
    variateStatic roundDouble doubleGenerators fuel doubleProbability 0 = some (1, 1) := by
  have hthr : ¬ doubleProbability < roundDouble (8 / 100) := by
    rw [roundDouble_threshold]
    norm_num [doubleProbability]
  have hgt : doubleDraw > doubleProbability := by
    norm_num [doubleDraw, doubleProbability]
  obtain ⟨g, rfl⟩ : ∃ g, fuel = g + 1 + 1 := ⟨fuel - 2, by omega⟩
  have hloop : variateLoop roundDouble doubleDraw (3602879701896397 / 4503599627370496)
      (g + 1 + 1) doubleProbability doubleProbability 0 = some 1 := by
    simp only [variateLoop, hgt, if_true, roundDouble_prod.1, roundDouble_sum, gt_iff_lt,
      lt_irrefl, if_false]
    norm_num
  simp only [variateStatic, hthr, if_false, roundDouble_q.1]
  have hdraw : (doubleGenerators.standardVariate 0).1 = doubleDraw := rfl
  rw [hdraw, hloop]
  rfl

/-- C10, counterexample: in `double` arithmetic, with the probability
`p = 0x1.9999999999998p-3` (a double between `0.08` and `1`, about `0.2`, for which
`q = 1 - p` is exact) and the uniform draw `U = 0x1.70a3d70a3d709p-2` (a double in
`[0, 1)`, about `0.36`), the loop runs once: the product `p * q` is rounded up, the sum
`p + prod` equals `U`, and the function returns `1`.  But `U > 1 - (1 - p)^2`, so `1` is
not an index `x` with `U <= 1 - (1 - p)^(x + 1)`; the least such index is `2`, which the
loop returns in exact arithmetic. -/
theorem variateStatic_double_not_least_index :
    8 / 100 ≤ doubleProbability ∧ doubleProbability ≤ 1 ∧
    0 ≤ doubleDraw ∧ doubleDraw < 1 ∧
    roundDouble doubleProbability = doubleProbability ∧
    roundDouble doubleDraw = doubleDraw ∧
    (doubleGenerators.standardVariate 0).1 = doubleDraw ∧
    variateStatic roundDouble doubleGenerators 2 doubleProbability 0 = some (1, 1) ∧
    variateStatic roundDouble doubleGenerators 1000 doubleProbability 0 = some (1, 1) ∧
    ¬ (doubleDraw ≤ 1 - (1 - doubleProbability) ^ (1 + 1)) ∧
    doubleDraw ≤ 1 - (1 - doubleProbability) ^ (2 + 1) ∧
    variateStatic id doubleGenerators 3 doubleProbability 0 = some (2, 1) := by
  have hp : roundDouble doubleProbability = doubleProbability := by
    rw [roundDouble_eq doubleProbability (-3) 7205759403792792
      (by norm_num [doubleProbability]) (by norm_num) (by norm_num [doubleProbability])
      (by norm_num [doubleProbability]) (by norm_num [doubleProbability, abs_lt])]
    norm_num [doubleProbability]
  have hU : roundDouble doubleDraw = doubleDraw := by
    rw [roundDouble_eq doubleDraw (-2) 6485183463413513
      (by norm_num [doubleDraw]) (by norm_num) (by norm_num [doubleDraw])
      (by norm_num [doubleDraw]) (by norm_num [doubleDraw, abs_lt])]
    norm_num [doubleDraw]
  have hexact : variateStatic id doubleGenerators 3 doubleProbability 0 = some (2, 1) := by
    norm_num [variateStatic, variateLoop, doubleGenerators, doubleDraw, doubleProbability]
  refine ⟨by norm_num [doubleProbability], by norm_num [doubleProbability],
    by norm_num [doubleDraw], by norm_num [doubleDraw], hp, hU, rfl,
    variateStatic_double_run 2 le_rfl, variateStatic_double_run 1000 (by norm_num), ?_, ?_,
    hexact⟩
  · norm_num [doubleDraw, doubleProbability]
  · norm_num [doubleDraw, doubleProbability]

end GeometricRand

/-! ## `GeometricRand`: the validity gate of `fitMLE` -/

namespace GeometricRand

theorem doubleToInt_nonneg (v : ℚ) (h : 0 ≤ v) : ¬ doubleToInt v < 0 := by
  have h0 : (0 : ℤ) ≤ ⌊v⌋ := Int.floor_nonneg.mpr h
  simp [doubleToInt, h, h0]

theorem doubleToInt_neg_of_le (v : ℚ) (h : v ≤ -1) : doubleToInt v < 0 := by
  have h0 : ¬ (0 : ℚ) ≤ v := by linarith
  have h1 : ⌈v⌉ ≤ -1 := Int.ceil_le.mpr (by push_cast; exact h)
  simp only [doubleToInt, h0, if_false]
  omega

/-- A sample without a negative value passes `checkValidity`. -/
theorem checkValidity_of_nonneg (sample : List ℚ) (h : ∀ v ∈ sample, 0 ≤ v) :
    checkValidity sample = true := by
  induction sample with
  | nil => rfl
  | cons v rest ih =>
    have hv := doubleToInt_nonneg v (h v (List.mem_cons_self v rest))
    simp only [checkValidity, hv, if_false]
    exact ih (fun u hu => h u (List.mem_cons_of_mem v hu))

/-- A sample with a value `<= -1` fails `checkValidity`. -/
theorem checkValidity_of_le_neg_one (sample : List ℚ) (h : ∃ v ∈ sample, v ≤ -1) :
    checkValidity sample = false := by
  induction sample with
  | nil =>
    obtain ⟨v, hv, _⟩ := h
    simp at hv
  | cons u rest ih =>
    by_cases hu : doubleToInt u < 0
    · simp [checkValidity, hu]
    · simp only [checkValidity, hu, if_false]
      obtain ⟨v, hv, hle⟩ := h
      rcases List.mem_cons.mp hv with rfl | hmem
      · exact absurd (doubleToInt_neg_of_le v hle) hu
      · exact ih ⟨v, hmem, hle⟩

/-- The two cases in which `fitMLE` does what the gate promises: a sample with a
value `<= -1` is refused and the object is left as it was, and a sample without a
negative value is fitted. -/
theorem fitMLE_gate (C : FitCollaborators) (X : GeometricRand) (sample : List ℚ) :
    ((∃ v ∈ sample, v ≤ -1) → fitMLE C X sample = (false, X)) ∧
    ((∀ v ∈ sample, 0 ≤ v) →
      fitMLE C X sample = (true, C.setParameters 1 (1 / (C.sampleMean sample + 1)) X)) := by
  constructor
  · intro h
    simp [fitMLE, checkValidity_of_le_neg_one sample h]
  · intro h
    simp [fitMLE, checkValidity_of_nonneg sample h, setProbability]

/-- C11, evaluated at the sample `{-0.5}`: the loop variable of `checkValidity` is an
`int`, the value `-0.5` is truncated to `0` and passes the test `var < 0`; so
`checkValidity` returns `true` for a sample that contains a value below `0`, and
`fitMLE` returns `true` after calling `setParameters(1, 1 / (sampleMean + 1))`. -/
theorem fitMLE_accepts_negative_fraction (C : FitCollaborators) (X : GeometricRand) :
    doubleToInt (-1 / 2) = 0 ∧
    checkValidity [-1 / 2] = true ∧
    fitMLE C X [-1 / 2] =
      (true, C.setParameters 1 (1 / (C.sampleMean [-1 / 2] + 1)) X) ∧
    (∀ v : ℚ, -1 < v → v < 0 → checkValidity [v] = true ∧ (fitMLE C X [v]).1 = true) := by
  have hgen : ∀ v : ℚ, -1 < v → v < 0 → doubleToInt v = 0 := by
    intro v h1 h2
    have h0 : ¬ (0 : ℚ) ≤ v := not_le.mpr h2
    simp only [doubleToInt, h0, if_false]
    rw [Int.ceil_eq_iff]
    constructor
    · push_cast
      linarith
    · push_cast
      linarith
  have h12 : doubleToInt (-1 / 2) = 0 := hgen _ (by norm_num) (by norm_num)
  have hcheck : ∀ v : ℚ, -1 < v → v < 0 → checkValidity [v] = true := by
    intro v h1 h2
    simp [checkValidity, hgen v h1 h2]
  refine ⟨h12, hcheck _ (by norm_num) (by norm_num), ?_, fun v h1 h2 => ⟨hcheck v h1 h2, ?_⟩⟩
  · simp [fitMLE, hcheck (-1 / 2) (by norm_num) (by norm_num), setProbability]
  · simp [fitMLE, hcheck v h1 h2]

end GeometricRand

/-! ## `GeometricRand`: the cumulative distribution function -/

namespace GeometricRand

theorem sum_P_range (X : GeometricRand) (hq : X.q = 1 - X.p) (k : ℕ) :
    ∑ i ∈ Finset.range (k + 1), P X (i : ℤ) = 1 - X.q ^ (k + 1) := by
  induction k with
  | zero =>
    simp [P_natCast, hq]
  | succ n ih =>
    rw [Finset.sum_range_succ, ih, P_natCast]
    have hp : X.p = 1 - X.q := by rw [hq]; ring
    rw [hp]
    ring

theorem F_of_nonneg (X : GeometricRand) (k : ℤ) (hk : 0 ≤ k) (hmax : k < 2147483647) :
    F X k = some (1 - X.q ^ (k.toNat + 1)) := by
  have h := F_natCast X k.toNat (by omega)
  rw [Int.toNat_of_nonneg hk] at h
  exact h

/-- C17, evaluated at `k = INT_MAX`, the distribution's `MaxValue()`: for a
`GeometricRand` with `0 < p <= 1` and `q = 1 - p`, the `int` sum `k + 1` of `F` overflows
at `k = 2147483647` and `F` has no value there.  For every smaller `k` the sum does not
overflow and `F` is as the claim says: `F(k) = 0` for `k < 0`,
`F(k) = P(0) + ... + P(k)` for `0 <= k < INT_MAX`, `F` is non-decreasing and
`0 <= F(k) <= 1`. -/
theorem F_overflows_at_INT_MAX (X : GeometricRand) (hp0 : 0 < X.p) (hp1 : X.p ≤ 1)
    (hq : X.q = 1 - X.p) :
    F X 2147483647 = none ∧
    (∀ k : ℤ, k < 0 → F X k = some 0) ∧
    (∀ k : ℕ, (k : ℤ) < 2147483647 →
      F X (k : ℤ) = some (∑ i ∈ Finset.range (k + 1), P X (i : ℤ))) ∧
    (∀ j k : ℤ, j ≤ k → k < 2147483647 →
      ∃ a b, F X j = some a ∧ F X k = some b ∧ a ≤ b) ∧
    (∀ k : ℤ, k < 2147483647 → ∃ a, F X k = some a ∧ 0 ≤ a ∧ a ≤ 1) := by
  have hq0 : 0 ≤ X.q := by rw [hq]; linarith
  have hq1 : X.q ≤ 1 := by rw [hq]; linarith
  have hneg : ∀ k : ℤ, k < 0 → F X k = some 0 := fun k hk => by simp [F, hk]
  have hrange : ∀ k : ℤ, k < 2147483647 → ∃ a, F X k = some a ∧ 0 ≤ a ∧ a ≤ 1 := by
    intro k hmax
    by_cases hk : k < 0
    · exact ⟨0, hneg k hk, le_rfl, zero_le_one⟩
    · refine ⟨_, F_of_nonneg X k (not_lt.mp hk) hmax, ?_, ?_⟩
      · have h1 : X.q ^ (k.toNat + 1) ≤ 1 := pow_le_one₀ hq0 hq1
        linarith
      · have h2 : 0 ≤ X.q ^ (k.toNat + 1) := pow_nonneg hq0 _
        linarith
  refine ⟨by simp [F], hneg, fun k hk => ?_, fun j k hjk hmax => ?_, hrange⟩
  · rw [sum_P_range X hq k, F_natCast X k hk]
  · by_cases hj : j < 0
    · obtain ⟨b, hb, hb0, _⟩ := hrange k hmax
      exact ⟨0, b, hneg j hj, hb, hb0⟩
    · have hj0 : 0 ≤ j := not_lt.mp hj
      refine ⟨_, _, F_of_nonneg X j hj0 (by omega), F_of_nonneg X k (le_trans hj0 hjk) hmax,
        ?_⟩
      have hle : j.toNat + 1 ≤ k.toNat + 1 := by omega
      have h := pow_le_pow_of_le_one hq0 hq1 hle
      linarith

/-- C17, witness: `p = q = 1/2`; `F(INT_MAX)` has no value, and `F(2) = 7/8` is
`P(0) + P(1) + P(2)`. -/
theorem F_overflows_at_INT_MAX_witness :
    F ⟨1 / 2, 1 / 2⟩ 2147483647 = none ∧
    F ⟨1 / 2, 1 / 2⟩ ((2 : ℕ) : ℤ) =
      some (∑ i ∈ Finset.range (2 + 1), P ⟨1 / 2, 1 / 2⟩ (i : ℤ)) :=
  ⟨(F_overflows_at_INT_MAX ⟨1 / 2, 1 / 2⟩ (by norm_num) (by norm_num) (by norm_num)).1,
    (F_overflows_at_INT_MAX ⟨1 / 2, 1 / 2⟩ (by norm_num) (by norm_num) (by norm_num)).2.2.1 2
      (by norm_num)⟩

end GeometricRand

/-! ## Mode -/

/-- C18: `Mode()` hands the minimiser `findMin` the function `x -> -f(x)`, the start
point `Mean()` when `Mean()` is finite and the start point `Median()` when it is not,
which is exactly when `Mean()` is an infinity or `NAN`, and returns the value the
minimiser leaves in `root`. -/
theorem Mode_uses_findMin (K : RandMath) (d : ContinuousDistribution) :
    (isfinite d.Mean = true →
      Mode K d = (K.findMin (fun x => -(d.f x)) d.Mean (fin 0)).2) ∧
    (isfinite d.Mean = false →
      Mode K d = (K.findMin (fun x => -(d.f x)) d.Median (fin 0)).2) ∧
    (isfinite d.Mean = false ↔ d.Mean = pinf ∨ d.Mean = ninf ∨ d.Mean = nan) ∧
    (∀ a x : ℚ, d.f (fin x) = fin a → -(d.f (fin x)) = fin (-a)) := by
  refine ⟨fun h => by simp [Mode, h], fun h => by simp [Mode, h], ?_, ?_⟩
  · cases d.Mean <;> simp [isfinite]
  · intro a x h
    rw [h]
    rfl

/-- C18, witness: the uniform distribution has the finite mean `1/2`, from which the
search starts; `lomaxDistribution` has an infinite mean and the search starts from
its median `1`. -/
theorem Mode_uses_findMin_witness :
    Mode constantKernel uniformDistribution = fin (1 / 2) ∧
    Mode constantKernel lomaxDistribution = fin 1 :=
  ⟨(Mode_uses_findMin constantKernel uniformDistribution).1 rfl,
    (Mode_uses_findMin constantKernel lomaxDistribution).2.1 rfl⟩

/-! ## Likelihood -/

theorem foldl_mul_eq (f : ℝ → ℝ) (sample : List ℝ) (init : ℝ) :
    sample.foldl (fun res var => res * f var) init = init * (sample.map f).prod := by
  induction sample generalizing init with
  | nil => simp
  | cons x rest ih =>
    simp only [List.foldl_cons, List.map_cons, List.prod_cons, ih]
    ring

theorem foldl_add_eq (g : ℝ → ℝ) (sample : List ℝ) (init : ℝ) :
    sample.foldl (fun res var => res + g var) init = init + (sample.map g).sum := by
  induction sample generalizing init with
  | nil => simp
  | cons x rest ih =>
    simp only [List.foldl_cons, List.map_cons, List.sum_cons, ih]
    ring

theorem log_prod_map (f : ℝ → ℝ) (sample : List ℝ) (hpos : ∀ x ∈ sample, 0 < f x) :
    Real.log (sample.map f).prod = (sample.map (fun x => Real.log (f x))).sum ∧
    0 < (sample.map f).prod := by
  induction sample with
  | nil => simp
  | cons x rest ih =>
    have hx : 0 < f x := hpos x (List.mem_cons_self x rest)
    obtain ⟨h1, h2⟩ := ih (fun y hy => hpos y (List.mem_cons_of_mem x hy))
    simp only [List.map_cons, List.prod_cons, List.sum_cons]
    rw [Real.log_mul (ne_of_gt hx) (ne_of_gt h2), h1]
    exact ⟨rfl, mul_pos hx h2⟩

/-- C19: over the reals, `Likelihood(sample)` is the product of `f` over the elements
of the sample (`1` for the empty sample), `LogLikelihood(sample)` is the sum of
`log(f(x))` over the elements (`0` for the empty sample), and
`LogLikelihood(sample) = log(Likelihood(sample))` whenever `f` is strictly positive at
every element.  Both are functions of the density and the sample alone. -/
theorem LogLikelihood_eq_log_Likelihood (f : ℝ → ℝ) (sample : List ℝ) :
    Likelihood f sample = (sample.map f).prod ∧
    LogLikelihood Real.log f sample = (sample.map (fun x => Real.log (f x))).sum ∧
    Likelihood f [] = 1 ∧
    LogLikelihood Real.log f [] = 0 ∧
    ((∀ x ∈ sample, 0 < f x) →
      LogLikelihood Real.log f sample = Real.log (Likelihood f sample)) := by
  have h1 : Likelihood f sample = (sample.map f).prod := by
    simp [Likelihood, foldl_mul_eq]
  have h2 : LogLikelihood Real.log f sample =
      (sample.map (fun x => Real.log (f x))).sum := by
    simp [LogLikelihood, foldl_add_eq (fun x => Real.log (f x))]
  refine ⟨h1, h2, rfl, rfl, fun hpos => ?_⟩
  rw [h1, h2, (log_prod_map f sample hpos).1]

/-- C19, witness: the density `x -> x + 1` on the sample `{1, 2}`. -/
theorem LogLikelihood_eq_log_Likelihood_witness :
    LogLikelihood Real.log (fun x : ℝ => x + 1) [1, 2] =
      Real.log (Likelihood (fun x : ℝ => x + 1) [1, 2]) :=
  (LogLikelihood_eq_log_Likelihood (fun x : ℝ => x + 1) [1, 2]).2.2.2.2
    (by
      intro x hx
      simp at hx
      rcases hx with rfl | rfl <;> norm_num)

/-! ## `ChiRand` and `RayleighRand` -/

theorem stdMax_half_of_le {K : Type} [LinearOrderedField K] (a : K) (h : 1 / 2 ≤ a) :
    stdMax a (1 / 2) = a := by
  have h2 : ¬ a < 1 / 2 := not_lt.mpr h
  simp only [stdMax, h2, if_false]

/-- For a positive scale, `ChiRand::setParameters` leaves coefficients that all
belong to the scale `sigma = scale`. -/
theorem ChiRand_setParameters_of_pos {K : Type} [LinearOrderedField K] (degree : ℤ)
    (scale : K) (X : ChiRand K) (hd : 1 ≤ degree) (hs : 0 < scale) :
    (ChiRand.setParameters degree scale X).sigma = scale ∧
    (ChiRand.setParameters degree scale X).sigmaSqInv = 1 / scale ^ 2 ∧
    (ChiRand.setParameters degree scale X).base.m = (degree : K) / 2 ∧
    (ChiRand.setParameters degree scale X).base.w = (degree : K) * scale ^ 2 := by
  have hs0 : ¬ scale ≤ 0 := not_le.mpr hs
  have hd1 : (1 : K) ≤ (degree : K) := by exact_mod_cast hd
  have hhalf : (1 : K) / 2 ≤ 1 / 2 * (degree : K) := by linarith
  have hw : ¬ (degree : K) * scale * scale ≤ 0 := by
    have h1 : 0 < (degree : K) * scale * scale := by positivity
    exact not_le.mpr h1
  refine ⟨?_, ?_, ?_, ?_⟩
  · simp [ChiRand.setParameters, hs0]
  · simp [ChiRand.setParameters, hs0, sq]
  · simp only [ChiRand.setParameters, NakagamiRand.setParameters, stdMax_half_of_le _ hhalf]
    ring
  · simp only [ChiRand.setParameters, NakagamiRand.setParameters, hw, if_false]
    ring

theorem rayleigh_exponent (scale x : ℝ) (hs : 0 < scale) :
    -(1 / 2) * x * x * (1 / (scale * scale)) = -(x ^ 2 / (2 * scale ^ 2)) := by
  have h : scale ≠ 0 := ne_of_gt hs
  field_simp
  ring

/-- C12: over the reals, for a `RayleighRand` whose scale was set to `scale > 0` and
every `x > 0`: `F(x) = 1 - exp(-x^2 / (2 scale^2))` lies in `[0, 1)`, so `Quantile`
takes neither its `NAN` nor its `INFINITY` branch at `F(x)`; on `[0, 1)` it is
`Quantile(p) = scale * sqrt(-2 log(1 - p))`; and `Quantile(F(x)) = x`. -/
theorem Quantile_F_roundtrip (scale x : ℝ) (X : ChiRand ℝ) (hs : 0 < scale) (hx : 0 < x) :
    (RayleighRand.setScale scale X).sigma = scale ∧
    RayleighRand.F Real.exp (RayleighRand.setScale scale X) x =
      1 - Real.exp (-(x ^ 2 / (2 * scale ^ 2))) ∧
    0 ≤ RayleighRand.F Real.exp (RayleighRand.setScale scale X) x ∧
    RayleighRand.F Real.exp (RayleighRand.setScale scale X) x < 1 ∧
    (∀ p : ℝ, 0 ≤ p → p < 1 →
      RayleighRand.Quantile Real.log Real.sqrt (RayleighRand.setScale scale X) p =
        Value.fin (scale * Real.sqrt (-2 * Real.log (1 - p)))) ∧
    RayleighRand.Quantile Real.log Real.sqrt (RayleighRand.setScale scale X)
        (RayleighRand.F Real.exp (RayleighRand.setScale scale X) x) = Value.fin x := by
  have hs0 : ¬ scale ≤ 0 := not_le.mpr hs
  have hx0 : ¬ x ≤ 0 := not_le.mpr hx
  have hsig : (RayleighRand.setScale scale X).sigma = scale := by
    simp [RayleighRand.setScale, ChiRand.setParameters, hs0]
  have hinv : (RayleighRand.setScale scale X).sigmaSqInv = 1 / (scale * scale) := by
    simp [RayleighRand.setScale, ChiRand.setParameters, hs0]
  have hF : RayleighRand.F Real.exp (RayleighRand.setScale scale X) x =
      1 - Real.exp (-(x ^ 2 / (2 * scale ^ 2))) := by
    simp only [RayleighRand.F, hx0, if_false, hinv]
    rw [rayleigh_exponent scale x hs]
  have hpos : 0 < x ^ 2 / (2 * scale ^ 2) := by positivity
  have hexp1 : Real.exp (-(x ^ 2 / (2 * scale ^ 2))) < 1 := by
    have h := Real.exp_lt_exp.mpr (show -(x ^ 2 / (2 * scale ^ 2)) < 0 by linarith)
    rwa [Real.exp_zero] at h
  have hexp0 : 0 < Real.exp (-(x ^ 2 / (2 * scale ^ 2))) := Real.exp_pos _
  have hQ : ∀ p : ℝ, 0 ≤ p → p < 1 →
      RayleighRand.Quantile Real.log Real.sqrt (RayleighRand.setScale scale X) p =
        Value.fin (scale * Real.sqrt (-2 * Real.log (1 - p))) := by
    intro p hp0 hp1
    have h1 : ¬ (p < 0 ∨ p > 1) := by
      intro h
      rcases h with h | h <;> linarith
    have h2 : p ≠ 1 := ne_of_lt hp1
    simp [RayleighRand.Quantile, h1, h2, hsig]
  refine ⟨hsig, hF, ?_, ?_, hQ, ?_⟩
  · rw [hF]
    linarith
  · rw [hF]
    linarith
  · rw [hQ _ (by rw [hF]; linarith) (by rw [hF]; linarith), hF]
    have h3 : 1 - (1 - Real.exp (-(x ^ 2 / (2 * scale ^ 2)))) =
        Real.exp (-(x ^ 2 / (2 * scale ^ 2))) := by ring
    rw [h3, Real.log_exp]
    have hne : scale ≠ 0 := ne_of_gt hs
    have h4 : -2 * -(x ^ 2 / (2 * scale ^ 2)) = (x / scale) ^ 2 := by
      field_simp
      ring
    rw [h4, Real.sqrt_sq (by positivity)]
    congr 1
    field_simp

/-- C12, witness: scale `2` and `x = 3`. -/
theorem Quantile_F_roundtrip_witness :
    RayleighRand.Quantile Real.log Real.sqrt (RayleighRand.setScale 2 ⟨0, 0, ⟨0, 0, 0, (0, 0)⟩⟩)
        (RayleighRand.F Real.exp (RayleighRand.setScale 2 ⟨0, 0, ⟨0, 0, 0, (0, 0)⟩⟩) 3) =
      Value.fin 3 :=
  (Quantile_F_roundtrip 2 3 ⟨0, 0, ⟨0, 0, 0, (0, 0)⟩⟩ (by norm_num) (by norm_num)).2.2.2.2.2

/-- C13, evaluated at `degree = 2`, `scale = -2`: `ChiRand::setParameters` replaces the
scale by `sigma = 1` and sets `sigmaSqInv = 1`, but hands the unreplaced `scale` to
`NakagamiRand::setParameters`, whose spread becomes `degree * scale^2 = 8` and not
`degree * sigma^2 = 2`. -/
theorem ChiRand_setParameters_negative_scale (X : ChiRand ℚ) :
    (ChiRand.setParameters 2 (-2) X).sigma = 1 ∧
    (ChiRand.setParameters 2 (-2) X).sigmaSqInv = 1 ∧
    (ChiRand.setParameters 2 (-2) X).base.m = 1 ∧
    (ChiRand.setParameters 2 (-2) X).base.w = 8 ∧
    (ChiRand.setParameters 2 (-2) X).base.w ≠
      2 * (ChiRand.setParameters 2 (-2) X).sigma ^ 2 := by
  have hw : (ChiRand.setParameters 2 (-2) X).base.w = 8 := by
    simp [ChiRand.setParameters, NakagamiRand.setParameters]
    norm_num
  have hsig : (ChiRand.setParameters 2 (-2) X).sigma = 1 := by
    simp [ChiRand.setParameters]
  refine ⟨hsig, ?_, ?_, hw, ?_⟩
  · simp [ChiRand.setParameters]
  · simp [ChiRand.setParameters, NakagamiRand.setParameters, stdMax]
    norm_num
  · rw [hw, hsig]
    norm_num

/-! ## `BetaRand`: the cached coefficients -/

namespace BetaRand

theorem le_stdMax {K : Type} [LinearOrderedField K] (a b : K) : b ≤ stdMax a b := by
  unfold stdMax
  split
  · exact le_rfl
  · rename_i h
    exact not_lt.mp h

/-- One setter call on an object with consistent coefficients leaves an object with
consistent coefficients. -/
theorem call_consistent {K : Type} [LinearOrderedField K] (tgamma : K → K)
    (MIN_POSITIVE : K) (c : ParameterCall K) (B : BetaRand K)
    (hB : B.gammaB = tgamma B.beta ∧ B.gammaA = tgamma B.alpha ∧
      MIN_POSITIVE ≤ B.alpha ∧ MIN_POSITIVE ≤ B.beta ∧
      B.X = (B.alpha, 1) ∧ B.Y = (B.beta, 1)) :
    MIN_POSITIVE ≤ (call tgamma MIN_POSITIVE c B).alpha ∧
    MIN_POSITIVE ≤ (call tgamma MIN_POSITIVE c B).beta ∧
    (call tgamma MIN_POSITIVE c B).gammaA = tgamma (call tgamma MIN_POSITIVE c B).alpha ∧
    (call tgamma MIN_POSITIVE c B).gammaB = tgamma (call tgamma MIN_POSITIVE c B).beta ∧
    (call tgamma MIN_POSITIVE c B).pdfCoef =
      tgamma ((call tgamma MIN_POSITIVE c B).alpha + (call tgamma MIN_POSITIVE c B).beta) /
        (tgamma (call tgamma MIN_POSITIVE c B).alpha *
          tgamma (call tgamma MIN_POSITIVE c B).beta) ∧
    (call tgamma MIN_POSITIVE c B).X = ((call tgamma MIN_POSITIVE c B).alpha, 1) ∧
    (call tgamma MIN_POSITIVE c B).Y = ((call tgamma MIN_POSITIVE c B).beta, 1) := by
  obtain ⟨hgb, hga, ha, hb, hX, hY⟩ := hB
  cases c with
  | setParameters shape1 shape2 =>
    exact ⟨le_stdMax _ _, le_stdMax _ _, rfl, rfl, rfl, rfl, rfl⟩
  | setAlpha shape1 =>
    refine ⟨le_stdMax _ _, hb, rfl, hgb, ?_, rfl, hY⟩
    simp only [call, setAlpha, hgb]
  | setBeta shape2 =>
    refine ⟨ha, le_stdMax _ _, hga, rfl, ?_, hX, rfl⟩
    simp only [call, setBeta, hga]

theorem run_preserves {K : Type} [LinearOrderedField K] (tgamma : K → K)
    (MIN_POSITIVE : K) (calls : List (ParameterCall K)) :
    ∀ B : BetaRand K,
      (MIN_POSITIVE ≤ B.alpha ∧ MIN_POSITIVE ≤ B.beta ∧ B.gammaA = tgamma B.alpha ∧
        B.gammaB = tgamma B.beta ∧
        B.pdfCoef = tgamma (B.alpha + B.beta) / (tgamma B.alpha * tgamma B.beta) ∧
        B.X = (B.alpha, 1) ∧ B.Y = (B.beta, 1)) →
      (MIN_POSITIVE ≤ (run tgamma MIN_POSITIVE calls B).alpha ∧
        MIN_POSITIVE ≤ (run tgamma MIN_POSITIVE calls B).beta ∧
        (run tgamma MIN_POSITIVE calls B).gammaA =
          tgamma (run tgamma MIN_POSITIVE calls B).alpha ∧
        (run tgamma MIN_POSITIVE calls B).gammaB =
          tgamma (run tgamma MIN_POSITIVE calls B).beta ∧
        (run tgamma MIN_POSITIVE calls B).pdfCoef =
          tgamma ((run tgamma MIN_POSITIVE calls B).alpha +
              (run tgamma MIN_POSITIVE calls B).beta) /
            (tgamma (run tgamma MIN_POSITIVE calls B).alpha *
              tgamma (run tgamma MIN_POSITIVE calls B).beta) ∧
        (run tgamma MIN_POSITIVE calls B).X = ((run tgamma MIN_POSITIVE calls B).alpha, 1) ∧
        (run tgamma MIN_POSITIVE calls B).Y = ((run tgamma MIN_POSITIVE calls B).beta, 1)) := by
  induction calls with
  | nil =>
    intro B hB
    exact hB
  | cons c rest ih =>
    intro B hB
    obtain ⟨ha, hb, hga, hgb, _, hX, hY⟩ := hB
    exact ih (call tgamma MIN_POSITIVE c B)
      (call_consistent tgamma MIN_POSITIVE c B ⟨hgb, hga, ha, hb, hX, hY⟩)

/-- C14: let `B` be the object left by the constructor followed by any sequence of
calls of `setParameters`, `setAlpha` and `setBeta`, with any arguments.  Then
`alpha >= MIN_POSITIVE`, `beta >= MIN_POSITIVE`, `gammaA = tgamma(alpha)`,
`gammaB = tgamma(beta)` and
`pdfCoef = tgamma(alpha + beta) / (tgamma(alpha) * tgamma(beta))` for the current
`alpha` and `beta` of `B`, and the two gamma variates carry the current shapes. -/
theorem run_consistent {K : Type} [LinearOrderedField K] (tgamma : K → K)
    (MIN_POSITIVE shape1 shape2 : K) (B0 : BetaRand K) (calls : List (ParameterCall K))
    (B : BetaRand K)
    (hB : B = run tgamma MIN_POSITIVE calls
      (construct tgamma MIN_POSITIVE shape1 shape2 B0)) :
    MIN_POSITIVE ≤ B.alpha ∧
    MIN_POSITIVE ≤ B.beta ∧
    B.gammaA = tgamma B.alpha ∧
    B.gammaB = tgamma B.beta ∧
    B.pdfCoef = tgamma (B.alpha + B.beta) / (tgamma B.alpha * tgamma B.beta) ∧
    B.X = (B.alpha, 1) ∧
    B.Y = (B.beta, 1) := by
  subst hB
  refine run_preserves tgamma MIN_POSITIVE calls
    (construct tgamma MIN_POSITIVE shape1 shape2 B0) ?_
  exact ⟨le_stdMax _ _, le_stdMax _ _, rfl, rfl, rfl, rfl, rfl⟩

/-- C14, witness: over the reals with the Gamma function, the object built from
`(-1, 2)` and then given `setBeta(3)`, `setAlpha(1/2)` has `alpha = 1/2`, `beta = 3` and
`pdfCoef = Gamma(alpha + beta) / (Gamma(alpha) * Gamma(beta))`. -/
theorem run_consistent_witness :
    (run Real.Gamma (1 / 10) [ParameterCall.setBeta 3, ParameterCall.setAlpha (1 / 2)]
        (construct Real.Gamma (1 / 10) (-1) 2 ⟨0, 0, 0, 0, 0, (0, 0), (0, 0)⟩)).pdfCoef =
      Real.Gamma
          ((run Real.Gamma (1 / 10) [ParameterCall.setBeta 3, ParameterCall.setAlpha (1 / 2)]
              (construct Real.Gamma (1 / 10) (-1) 2 ⟨0, 0, 0, 0, 0, (0, 0), (0, 0)⟩)).alpha +
            (run Real.Gamma (1 / 10) [ParameterCall.setBeta 3, ParameterCall.setAlpha (1 / 2)]
              (construct Real.Gamma (1 / 10) (-1) 2 ⟨0, 0, 0, 0, 0, (0, 0), (0, 0)⟩)).beta) /
        (Real.Gamma
            (run Real.Gamma (1 / 10) [ParameterCall.setBeta 3, ParameterCall.setAlpha (1 / 2)]
              (construct Real.Gamma (1 / 10) (-1) 2 ⟨0, 0, 0, 0, 0, (0, 0), (0, 0)⟩)).alpha *
          Real.Gamma
            (run Real.Gamma (1 / 10) [ParameterCall.setBeta 3, ParameterCall.setAlpha (1 / 2)]
              (construct Real.Gamma (1 / 10) (-1) 2 ⟨0, 0, 0, 0, 0, (0, 0), (0, 0)⟩)).beta) :=
  (run_consistent Real.Gamma (1 / 10) (-1) 2 ⟨0, 0, 0, 0, 0, (0, 0), (0, 0)⟩
    [ParameterCall.setBeta 3, ParameterCall.setAlpha (1 / 2)] _ rfl).2.2.2.2.1

end BetaRand

/-! ## `BetaRand`: the capped rejection loop -/

namespace BetaRand

theorem candidate_succ {K σ : Type} (standardVariate : σ → K × σ) (s : σ) (n : ℕ) :
    candidate standardVariate s (n + 1) =
      candidate standardVariate (afterPair standardVariate s) n := by
  simp [candidate, Function.iterate_succ_apply]

theorem variateLoop_accept {K σ : Type} [LinearOrderedField K] (pow : K → K → K)
    (standardVariate : σ → K × σ) (alpha : K) (fuel : ℕ) (iter : ℤ) (s : σ)
    (h : accepts pow alpha (candidate standardVariate s 0)) :
    variateLoop pow standardVariate alpha (fuel + 1) iter s =
      Except.ok ((candidate standardVariate s 0).1, afterPair standardVariate s) := by
  simp only [accepts, candidate, Function.iterate_zero, id_eq] at h
  simp [variateLoop, h, candidate, afterPair]

theorem variateLoop_reject_continue {K σ : Type} [LinearOrderedField K] (pow : K → K → K)
    (standardVariate : σ → K × σ) (alpha : K) (fuel : ℕ) (iter : ℤ) (s : σ)
    (h : ¬ accepts pow alpha (candidate standardVariate s 0))
    (hiter : iter + 1 ≤ 1000000000) :
    variateLoop pow standardVariate alpha (fuel + 1) iter s =
      variateLoop pow standardVariate alpha fuel (iter + 1)
        (afterPair standardVariate s) := by
  simp only [accepts, candidate, Function.iterate_zero, id_eq] at h
  have h2 : ¬ (2147483647 : ℤ) ≤ iter := by omega
  simp [variateLoop, h, h2, hiter, afterPair]

theorem variateLoop_reject_stop {K σ : Type} [LinearOrderedField K] (pow : K → K → K)
    (standardVariate : σ → K × σ) (alpha : K) (fuel : ℕ) (iter : ℤ) (s : σ)
    (h : ¬ accepts pow alpha (candidate standardVariate s 0))
    (hiter : iter = 1000000000) :
    variateLoop pow standardVariate alpha (fuel + 1) iter s =
      Except.ok (0, afterPair standardVariate s) := by
  simp only [accepts, candidate, Function.iterate_zero, id_eq] at h
  subst hiter
  simp [variateLoop, h, afterPair]

/-- The loop started with the counter at `i` and enough fuel for the `m + 1` passes
that remain until the cap: it returns the `u1` of the first accepted pair, or `0`
after `m + 1` rejected pairs. -/
theorem variateLoop_spec {K σ : Type} [LinearOrderedField K] (pow : K → K → K)
    (standardVariate : σ → K × σ) (alpha : K) :
    ∀ (m i fuel : ℕ) (s : σ), i + (m + 1) = 1000000001 → m + 1 ≤ fuel →
      (∀ n, n ≤ m → accepts pow alpha (candidate standardVariate s n) →
        (∀ j, j < n → ¬ accepts pow alpha (candidate standardVariate s j)) →
        variateLoop pow standardVariate alpha fuel (i : ℤ) s =
          Except.ok ((candidate standardVariate s n).1,
            (afterPair standardVariate)^[n + 1] s)) ∧
      ((∀ n, n ≤ m → ¬ accepts pow alpha (candidate standardVariate s n)) →
        variateLoop pow standardVariate alpha fuel (i : ℤ) s =
          Except.ok (0, (afterPair standardVariate)^[m + 1] s)) := by
  intro m
  induction m with
  | zero =>
    intro i fuel s hi hfuel
    obtain ⟨fuel, rfl⟩ : ∃ g, fuel = g + 1 := ⟨fuel - 1, by omega⟩
    constructor
    · intro n hn hacc _
      have hn0 : n = 0 := by omega
      subst hn0
      rw [variateLoop_accept pow standardVariate alpha fuel _ s hacc]
      rfl
    · intro hrej
      rw [variateLoop_reject_stop pow standardVariate alpha fuel _ s (hrej 0 le_rfl)
        (by omega)]
      rfl
  | succ m ih =>
    intro i fuel s hi hfuel
    obtain ⟨fuel, rfl⟩ : ∃ g, fuel = g + 1 := ⟨fuel - 1, by omega⟩
    have hnext : ((i : ℤ) + 1) = ((i + 1 : ℕ) : ℤ) := by push_cast; ring
    have hih := ih (i + 1) fuel (afterPair standardVariate s) (by omega) (by omega)
    constructor
    · intro n hn hacc hfirst
      cases n with
      | zero =>
        rw [variateLoop_accept pow standardVariate alpha fuel _ s hacc]
        rfl
      | succ n =>
        rw [variateLoop_reject_continue pow standardVariate alpha fuel _ s
          (hfirst 0 (Nat.succ_pos n)) (by omega), hnext]
        rw [candidate_succ] at hacc ⊢
        have h := hih.1 n (by omega) hacc (fun j hj => by
          rw [← candidate_succ]
          exact hfirst (j + 1) (by omega))
        rw [h, Function.iterate_succ_apply (afterPair standardVariate) (n + 1) s]
    · intro hrej
      rw [variateLoop_reject_continue pow standardVariate alpha fuel _ s (hrej 0 (by omega))
        (by omega), hnext]
      have h := hih.2 (fun n hn => by
        rw [← candidate_succ]
        exact hrej (n + 1) (by omega))
      rw [h, Function.iterate_succ_apply (afterPair standardVariate) (m + 1) s]

/-- C15: given fuel for `1,000,000,001` passes, `variateForEqualParameters` always
returns a value: the model neither runs out of fuel nor lets the `int` counter pass
`INT_MAX`.  It returns the `u1` of the first pair `(u1, u2)` among the first
`1,000,000,001` pairs of the stream with `u2 <= pow(4 u1 (1 - u1), alpha - 1)`, having
drawn no pair beyond that one, and it returns `0` after exactly `1,000,000,001` pairs
when none of them is accepted. -/
theorem variateForEqualParameters_capped {K σ : Type} [LinearOrderedField K]
    (pow : K → K → K) (standardVariate : σ → K × σ) (B : BetaRand K) (fuel : ℕ) (s : σ)
    (hfuel : 1000000001 ≤ fuel) :
    (∃ v, variateForEqualParameters pow standardVariate B fuel s = Except.ok v) ∧
    (∀ n, n < 1000000001 → accepts pow B.alpha (candidate standardVariate s n) →
      (∀ j, j < n → ¬ accepts pow B.alpha (candidate standardVariate s j)) →
      variateForEqualParameters pow standardVariate B fuel s =
        Except.ok ((candidate standardVariate s n).1,
          (afterPair standardVariate)^[n + 1] s)) ∧
    ((∀ n, n < 1000000001 → ¬ accepts pow B.alpha (candidate standardVariate s n)) →
      variateForEqualParameters pow standardVariate B fuel s =
        Except.ok (0, (afterPair standardVariate)^[1000000001] s)) := by
  have hspec := variateLoop_spec pow standardVariate B.alpha 1000000000 0 fuel s
    (by norm_num) (by omega)
  have hfirst : ∀ n, n < 1000000001 → accepts pow B.alpha (candidate standardVariate s n) →
      (∀ j, j < n → ¬ accepts pow B.alpha (candidate standardVariate s j)) →
      variateForEqualParameters pow standardVariate B fuel s =
        Except.ok ((candidate standardVariate s n).1,
          (afterPair standardVariate)^[n + 1] s) := by
    intro n hn hacc hmin
    exact hspec.1 n (by omega) hacc hmin
  have hnone : (∀ n, n < 1000000001 → ¬ accepts pow B.alpha (candidate standardVariate s n)) →
      variateForEqualParameters pow standardVariate B fuel s =
        Except.ok (0, (afterPair standardVariate)^[1000000001] s) := by
    intro hrej
    exact hspec.2 (fun n hn => hrej n (by omega))
  refine ⟨?_, hfirst, hnone⟩
  by_cases hex : ∃ n, n < 1000000001 ∧ accepts pow B.alpha (candidate standardVariate s n)
  · classical
    have hn := Nat.find_spec hex
    exact ⟨_, hfirst (Nat.find hex) hn.1 hn.2 (fun j hj hacc =>
      Nat.find_min hex hj ⟨lt_trans hj hn.1, hacc⟩)⟩
  · exact ⟨_, hnone (fun n hn hacc => hex ⟨n, hn, hacc⟩)⟩

end BetaRand

/-- C15, witness: a stream whose draws are all `1/2` and a `pow` that is constantly
`1`; the first pair is accepted and its `u1 = 1/2` is returned after two draws. -/
theorem BetaRand.variateForEqualParameters_capped_witness :
    BetaRand.variateForEqualParameters (fun _ _ => (1 : ℚ)) (fun s : ℕ => ((1 / 2 : ℚ), s + 1))
        ⟨2, 2, 1, 1, 6, (2, 1), (2, 1)⟩ 1000000001 0 =
      Except.ok (1 / 2, 2) := by
  have h := (BetaRand.variateForEqualParameters_capped (fun _ _ => (1 : ℚ))
    (fun s : ℕ => ((1 / 2 : ℚ), s + 1)) ⟨2, 2, 1, 1, 6, (2, 1), (2, 1)⟩ 1000000001 0
    le_rfl).2.1 0 (by norm_num) (by norm_num [BetaRand.accepts, BetaRand.candidate])
    (fun j hj => absurd hj (Nat.not_lt_zero j))
  simpa [BetaRand.candidate, BetaRand.afterPair] using h

/-! ## `VonMisesRand`: the cumulative distribution function -/

namespace VonMisesRand

/-- Outside the open interval `(mu - pi, mu + pi)` the function `F` is `0` on the left
and `1` on the right; inside, it is the integral of `f` from `0` to `x`, whatever
`mu` is. -/
theorem F_cases {K : Type} [LinearOrderedField K] (integral : (K → K) → K → K → K)
    (exp cos : K → K) (pi : K) (V : VonMisesRand K) (x : K) (hpi : 0 < pi) :
    (x ≤ V.mu - pi → F integral exp cos pi V x = 0) ∧
    (V.mu + pi ≤ x → F integral exp cos pi V x = 1) ∧
    (V.mu - pi < x → x < V.mu + pi →
      F integral exp cos pi V x = integral (fun t => f exp cos pi V t) 0 x) := by
  refine ⟨fun h => by simp [F, h], fun h => ?_, fun h1 h2 => ?_⟩
  · have h0 : ¬ x ≤ V.mu - pi := by
      intro h0
      linarith
    simp [F, h0, h]
  · simp [F, not_le.mpr h1, not_le.mpr h2]

theorem f_uniform_on (t : ℝ) (ht : t ∈ Set.uIcc (0 : ℝ) (-1)) :
    f Real.exp Real.cos Real.pi ⟨0, 0, 1⟩ t = 1 / (2 * Real.pi) := by
  have hpi := Real.pi_gt_three
  rw [Set.uIcc_of_ge (by norm_num : (-1 : ℝ) ≤ 0)] at ht
  have h1 : ¬ (t < 0 - Real.pi ∨ t > 0 + Real.pi) := by
    intro h
    rcases h with h | h
    · linarith [ht.1]
    · linarith [ht.2]
  simp only [f, h1, if_false, zero_mul, Real.exp_zero, mul_one]
  field_simp

/-- C16, evaluated at `mu = 0`, `k = 0`, `x = -1` over the reals with the exact
integral: the object is the one `setLocation(0)` and `setConcentration(0)` leave
(with `I0(0) = 1`), the point `-1` lies inside the support `(-pi, pi)`, and
`F(-1)` is the integral of the density from `0` to `-1`, which is `-1 / (2 pi) < 0`. -/
theorem F_negative_inside_support (modifiedBesselFirstKind : ℝ → ℤ → ℝ)
    (V : VonMisesRand ℝ) (hI0 : modifiedBesselFirstKind 0 0 = 1) :
    setConcentration modifiedBesselFirstKind 0 (setLocation 0 V) = ⟨0, 0, 1⟩ ∧
    (0 : ℝ) - Real.pi < -1 ∧ (-1 : ℝ) < 0 + Real.pi ∧
    F (fun g a b => ∫ t in a..b, g t) Real.exp Real.cos Real.pi
        (setConcentration modifiedBesselFirstKind 0 (setLocation 0 V)) (-1) =
      -(1 / (2 * Real.pi)) ∧
    F (fun g a b => ∫ t in a..b, g t) Real.exp Real.cos Real.pi
        (setConcentration modifiedBesselFirstKind 0 (setLocation 0 V)) (-1) < 0 := by
  have hpi := Real.pi_gt_three
  have hstate : setConcentration modifiedBesselFirstKind 0 (setLocation 0 V) = ⟨0, 0, 1⟩ := by
    simp [setConcentration, setLocation, stdMax, hI0]
  have hF : F (fun g a b => ∫ t in a..b, g t) Real.exp Real.cos Real.pi
      (setConcentration modifiedBesselFirstKind 0 (setLocation 0 V)) (-1) =
      -(1 / (2 * Real.pi)) := by
    rw [hstate]
    have h := (F_cases (fun g a b => ∫ t in a..b, g t) Real.exp Real.cos Real.pi
      ⟨0, 0, 1⟩ (-1) Real.pi_pos).2.2 (by simp; linarith) (by simp; linarith)
    rw [h]
    show ∫ t in (0 : ℝ)..(-1), f Real.exp Real.cos Real.pi ⟨0, 0, 1⟩ t = _
    rw [intervalIntegral.integral_congr f_uniform_on, intervalIntegral.integral_const]
    simp
  refine ⟨hstate, by linarith, by linarith, hF, ?_⟩
  rw [hF]
  have hpos : 0 < 1 / (2 * Real.pi) := by positivity
  linarith

/-- C16, witness: a Bessel function that is constantly `1`. -/
theorem F_negative_inside_support_witness :
    F (fun g a b => ∫ t in a..b, g t) Real.exp Real.cos Real.pi
        (setConcentration (fun _ _ => 1) 0 (setLocation 0 ⟨5, 5, 5⟩)) (-1) < 0 :=
  (F_negative_inside_support (fun _ _ => 1) ⟨5, 5, 5⟩ rfl).2.2.2.2

end VonMisesRand

/-! ## `BetaRand`: density and cumulative distribution function -/

namespace BetaRand

/-- Inside `(0, 1)` the function `F` is the identity, so its derivative is `1` for
every object. -/
theorem hasDerivAt_F (B : BetaRand ℝ) (x : ℝ) (hx0 : 0 < x) (hx1 : x < 1) :
    HasDerivAt (F B) 1 x := by
  have heq : F B =ᶠ[nhds x] fun y => y := by
    refine Filter.eventuallyEq_of_mem (Ioo_mem_nhds hx0 hx1) ?_
    intro y hy
    have h1 : ¬ y ≤ 0 := not_le.mpr hy.1
    have h2 : ¬ y ≥ 1 := not_le.mpr hy.2
    simp [F, h1, h2]
  exact (hasDerivAt_id x).congr_of_eventuallyEq heq

theorem gamma_three : Real.Gamma 3 = 2 := by
  have h := Real.Gamma_nat_eq_factorial 2
  have h3 : ((2 : ℕ) : ℝ) + 1 = 3 := by norm_num
  rw [h3] at h
  rw [h]
  norm_num [Nat.factorial]

theorem construct_two_one (MIN_POSITIVE : ℝ) (B0 : BetaRand ℝ) (hMIN : MIN_POSITIVE ≤ 1) :
    (construct Real.Gamma MIN_POSITIVE 2 1 B0).alpha = 2 ∧
    (construct Real.Gamma MIN_POSITIVE 2 1 B0).beta = 1 ∧
    (construct Real.Gamma MIN_POSITIVE 2 1 B0).pdfCoef = 2 := by
  have h2 : ¬ (2 : ℝ) < MIN_POSITIVE := by linarith
  have h1 : ¬ (1 : ℝ) < MIN_POSITIVE := by linarith
  have hsum : (2 : ℝ) + 1 = 3 := by norm_num
  refine ⟨?_, ?_, ?_⟩
  · simp [construct, setParameters, stdMax, h2]
  · simp [construct, setParameters, stdMax, h1]
  · simp [construct, setParameters, stdMax, h1, h2, hsum, gamma_three, Real.Gamma_two,
      Real.Gamma_one]

/-- C20, evaluated at `alpha = 2`, `beta = 1`, `x = 1/4` over the reals with the Gamma
function and the real power: the object has `pdfCoef = 2` and the density
`f(1/4) = 2 * (1/4)^1 * (3/4)^0 = 1/2`, while `F` is the identity on `(0, 1)` and has
the derivative `1` there; so `f(1/4)` is not the derivative of `F` at `1/4`. -/
theorem f_not_derivative_of_F (MIN_POSITIVE : ℝ) (B0 : BetaRand ℝ)
    (hMIN : MIN_POSITIVE ≤ 1) :
    (construct Real.Gamma MIN_POSITIVE 2 1 B0).alpha = 2 ∧
    (construct Real.Gamma MIN_POSITIVE 2 1 B0).beta = 1 ∧
    f Real.rpow (construct Real.Gamma MIN_POSITIVE 2 1 B0) (1 / 4) = 1 / 2 ∧
    (∀ x : ℝ, 0 < x → x < 1 → F (construct Real.Gamma MIN_POSITIVE 2 1 B0) x = x) ∧
    HasDerivAt (F (construct Real.Gamma MIN_POSITIVE 2 1 B0)) 1 (1 / 4) ∧
    ¬ HasDerivAt (F (construct Real.Gamma MIN_POSITIVE 2 1 B0))
      (f Real.rpow (construct Real.Gamma MIN_POSITIVE 2 1 B0) (1 / 4)) (1 / 4) := by
  obtain ⟨ha, hb, hc⟩ := construct_two_one MIN_POSITIVE B0 hMIN
  have hf : f Real.rpow (construct Real.Gamma MIN_POSITIVE 2 1 B0) (1 / 4) = 1 / 2 := by
    have hcond : ¬ ((1 / 4 : ℝ) < 0 ∨ (1 / 4 : ℝ) > 1) := by norm_num
    simp only [f, hcond, if_false, ha, hb, hc, Real.rpow_eq_pow]
    norm_num
  have hderiv := hasDerivAt_F (construct Real.Gamma MIN_POSITIVE 2 1 B0) (1 / 4)
    (by norm_num) (by norm_num)
  refine ⟨ha, hb, hf, ?_, hderiv, ?_⟩
  · intro x hx0 hx1
    have h1 : ¬ x ≤ 0 := not_le.mpr hx0
    have h2 : ¬ x ≥ 1 := not_le.mpr hx1
    simp [F, h1, h2]
  · intro h
    rw [hf] at h
    have h2 := h.unique hderiv
    norm_num at h2

/-- C20, witness: `MIN_POSITIVE = 1e-21` and an object whose members are all `0`
before the constructor runs. -/
theorem f_not_derivative_of_F_witness :
    ¬ HasDerivAt
      (F (construct Real.Gamma (1 / 10 ^ 21) 2 1 ⟨0, 0, 0, 0, 0, (0, 0), (0, 0)⟩))
      (f Real.rpow (construct Real.Gamma (1 / 10 ^ 21) 2 1 ⟨0, 0, 0, 0, 0, (0, 0), (0, 0)⟩)
        (1 / 4)) (1 / 4) :=
  (f_not_derivative_of_F (1 / 10 ^ 21) ⟨0, 0, 0, 0, 0, (0, 0), (0, 0)⟩
    (by norm_num)).2.2.2.2.2

end BetaRand

/-! ## `YuleRand`: mass function and cumulative distribution function -/

namespace YuleRand

theorem setShape_of_pos (MIN_POSITIVE shape : ℝ) (Y : YuleRand ℝ) (hs : 0 < shape) :
    (setShape Real.Gamma MIN_POSITIVE shape Y).ro = shape ∧
    (setShape Real.Gamma MIN_POSITIVE shape Y).gamma1pRo = Real.Gamma (shape + 1) := by
  have h : ¬ shape ≤ 0 := not_le.mpr hs
  simp [setShape, h]

theorem F_of_lt_one (Y : YuleRand ℝ) (x : ℝ) (hx : x < 1) : F Real.Gamma Y x = 0 := by
  simp [F, hx]

theorem F_intCast (Y : YuleRand ℝ) (k : ℤ) (hk : 1 ≤ k) :
    F Real.Gamma Y (k : ℝ) =
      1 - (k : ℝ) * Y.gamma1pRo * Real.Gamma (k : ℝ) / Real.Gamma ((k : ℝ) + Y.ro + 1) := by
  have h1 : ¬ ((k : ℝ) < 1) := by
    have h : (1 : ℝ) ≤ (k : ℝ) := by exact_mod_cast hk
    exact not_lt.mpr h
  simp [F, h1]

theorem P_of_one_le (Y : YuleRand ℝ) (k : ℤ) (hk : 1 ≤ k) :
    P Real.Gamma Y k =
      Y.ro * Y.gamma1pRo * Real.Gamma (k : ℝ) / Real.Gamma ((k : ℝ) + Y.ro + 1) := by
  have h1 : ¬ k < 1 := not_lt.mpr hk
  simp [P, h1]

/-- The increment of `F` at `k = 1`, where `F(0) = 0`. -/
theorem F_sub_at_one (ro : ℝ) (hro : 0 < ro) :
    (1 - 1 * Real.Gamma (ro + 1) * Real.Gamma 1 / Real.Gamma (1 + ro + 1)) - 0 =
      ro * Real.Gamma (ro + 1) * Real.Gamma 1 / Real.Gamma (1 + ro + 1) := by
  have hg : 0 < Real.Gamma (ro + 1) := Real.Gamma_pos_of_pos (by linarith)
  have hstep : Real.Gamma (1 + ro + 1) = (ro + 1) * Real.Gamma (ro + 1) := by
    rw [show (1 : ℝ) + ro + 1 = (ro + 1) + 1 by ring]
    exact Real.Gamma_add_one (by linarith)
  rw [hstep, Real.Gamma_one]
  have h1 : ro + 1 ≠ 0 := by linarith
  have h2 : Real.Gamma (ro + 1) ≠ 0 := ne_of_gt hg
  field_simp
  ring

/-- The increment of `F` from `a` to `a + 1` for `a > 0`, by `Gamma(z + 1) = z Gamma(z)`. -/
theorem F_sub_step (ro g a : ℝ) (hro : 0 < ro) (ha : 0 < a) :
    (1 - (a + 1) * g * Real.Gamma (a + 1) / Real.Gamma (a + 1 + ro + 1)) -
        (1 - a * g * Real.Gamma a / Real.Gamma (a + ro + 1)) =
      ro * g * Real.Gamma (a + 1) / Real.Gamma (a + 1 + ro + 1) := by
  have hG : 0 < Real.Gamma (a + ro + 1) := Real.Gamma_pos_of_pos (by linarith)
  have hstep1 : Real.Gamma (a + 1) = a * Real.Gamma a := Real.Gamma_add_one (ne_of_gt ha)
  have hstep2 : Real.Gamma (a + 1 + ro + 1) = (a + ro + 1) * Real.Gamma (a + ro + 1) := by
    rw [show a + 1 + ro + 1 = (a + ro + 1) + 1 by ring]
    exact Real.Gamma_add_one (by linarith)
  rw [hstep1, hstep2]
  have h1 : a + ro + 1 ≠ 0 := by linarith
  have h2 : Real.Gamma (a + ro + 1) ≠ 0 := ne_of_gt hG
  field_simp
  ring

/-- C21: over the reals with the Gamma function, for a `YuleRand` whose shape was set
to `shape > 0`: `ro = shape`; `F(k) - F(k - 1) = P(k)` for every integer `k >= 1`;
`F(x) = 0` for every `x < 1`; `P(k) = 0` for every integer `k < 1`; and
`F(x) = F(floor(x))` for every real `x >= 1`. -/
theorem F_sub_eq_P (MIN_POSITIVE shape : ℝ) (Y : YuleRand ℝ) (hs : 0 < shape) :
    (setShape Real.Gamma MIN_POSITIVE shape Y).ro = shape ∧
    (∀ k : ℤ, 1 ≤ k →
      F Real.Gamma (setShape Real.Gamma MIN_POSITIVE shape Y) (k : ℝ) -
          F Real.Gamma (setShape Real.Gamma MIN_POSITIVE shape Y) ((k : ℝ) - 1) =
        P Real.Gamma (setShape Real.Gamma MIN_POSITIVE shape Y) k) ∧
    (∀ x : ℝ, x < 1 → F Real.Gamma (setShape Real.Gamma MIN_POSITIVE shape Y) x = 0) ∧
    (∀ k : ℤ, k < 1 → P Real.Gamma (setShape Real.Gamma MIN_POSITIVE shape Y) k = 0) ∧
    (∀ x : ℝ, 1 ≤ x →
      F Real.Gamma (setShape Real.Gamma MIN_POSITIVE shape Y) x =
        F Real.Gamma (setShape Real.Gamma MIN_POSITIVE shape Y) (⌊x⌋ : ℝ)) := by
  obtain ⟨hro, hg⟩ := setShape_of_pos MIN_POSITIVE shape Y hs
  refine ⟨hro, fun k hk => ?_, fun x hx => F_of_lt_one _ x hx,
    fun k hk => by simp [P, hk], fun x hx => ?_⟩
  · rw [P_of_one_le _ k hk, F_intCast _ k hk, hro, hg]
    rcases eq_or_lt_of_le hk with h1 | h2
    · subst h1
      rw [F_of_lt_one _ _ (by norm_num)]
      have h := F_sub_at_one shape hs
      simpa using h
    · have hk1 : (1 : ℤ) ≤ k - 1 := by omega
      have hcast : ((k : ℝ) - 1) = ((k - 1 : ℤ) : ℝ) := by push_cast; ring
      rw [hcast, F_intCast _ (k - 1) hk1, hro, hg]
      have ha : (0 : ℝ) < ((k - 1 : ℤ) : ℝ) := by exact_mod_cast (by omega : (0 : ℤ) < k - 1)
      have hk' : (k : ℝ) = ((k - 1 : ℤ) : ℝ) + 1 := by push_cast; ring
      rw [hk']
      exact F_sub_step shape (Real.Gamma (shape + 1)) ((k - 1 : ℤ) : ℝ) hs ha
  · have h1 : ¬ x < 1 := not_lt.mpr hx
    have hfloor : (1 : ℤ) ≤ ⌊x⌋ := Int.le_floor.mpr (by simpa using hx)
    have h2 : ¬ ((⌊x⌋ : ℝ) < 1) := by
      have h : (1 : ℝ) ≤ (⌊x⌋ : ℝ) := by exact_mod_cast hfloor
      exact not_lt.mpr h
    simp [F, h1, h2]

/-- C21, witness: shape `2`; `F(3) - F(2) = P(3)`. -/
theorem F_sub_eq_P_witness :
    F Real.Gamma (setShape Real.Gamma (1 / 10 ^ 21) 2 ⟨0, 0⟩) ((3 : ℤ) : ℝ) -
        F Real.Gamma (setShape Real.Gamma (1 / 10 ^ 21) 2 ⟨0, 0⟩) (((3 : ℤ) : ℝ) - 1) =
      P Real.Gamma (setShape Real.Gamma (1 / 10 ^ 21) 2 ⟨0, 0⟩) 3 :=
  (F_sub_eq_P (1 / 10 ^ 21) 2 ⟨0, 0⟩ (by norm_num)).2.1 3 (by norm_num)

end YuleRand

end RandLib
